import Mathlib

/-!
# CogServer network layer: WebSocket frame decoding and HTTP upgrade handshake

A shallow embedding of `opencog/network/WebSocket.cc` and of
`opencog/cogserver/server/WebServer.cc`.

* A `std::string` / `char` buffer is a list of byte values (`Bytes`).
* The socket is the list of bytes the peer has sent and that were not read
  yet (`inp`) together with the bytes written so far by `Send` (`out`).
* A C++ exception is a constructor of `Result`.
* `unsigned char`, `uint32_t` and `size_t` arithmetic is arithmetic on `Nat`
  with an explicit `% 2 ^ w`.
-/

namespace CogServer

/-- A byte string: the contents of a `std::string` or of a `char` buffer. -/
abbrev Bytes := List Nat

/-- Every element is a byte value. -/
def isBytes (l : Bytes) : Prop := ∀ b ∈ l, b < 256

instance (l : Bytes) : Decidable (isBytes l) := by
  unfold isBytes; infer_instance

/-- An ASCII string literal of the source as a byte string. -/
def str (s : String) : Bytes := s.toList.map Char.toNat

/-- What a call ends with: a normal return, `throw SilentException()`, or the
`boost::system::system_error` that `boost::asio::read` throws when the peer
closes before the requested bytes arrived. -/
inductive Result (α : Type) where
  | ret (a : α)
  | SilentException
  | system_error
  deriving DecidableEq

/-- The members of `ServerSocket` used by the two functions, and the socket. -/
structure ServerSocket where
  /-- bytes received from the peer and not read yet (`*_socket`) -/
  inp : Bytes
  /-- bytes written with `Send`, oldest first -/
  out : Bytes
  _got_first_line : Bool
  _got_http_header : Bool
  _got_websock_header : Bool
  _do_frame_io : Bool
  _url : Bytes
  _webkey : Bytes
  deriving DecidableEq

/-- `boost::asio::read(*_socket, boost::asio::buffer(p, n))`: the next `n`
bytes, or `none` when the stream ends first (the call then throws). -/
def ServerSocket.read (s : ServerSocket) (n : Nat) : Option (Bytes × ServerSocket) :=
  if n ≤ s.inp.length then some (s.inp.take n, { s with inp := s.inp.drop n })
  else none

/-- `Send(buf)`: append to the wire. -/
def ServerSocket.Send (s : ServerSocket) (b : Bytes) : ServerSocket :=
  { s with out := s.out ++ b }

/-! ## `get_websocket_line` -/

/-- One iteration after another of `while (9 == opcode) { ... }`.
`fop` is the frame header byte read last. Returns the first header byte that
is not a ping together with the socket, or the exception thrown inside the
loop. `none`: the fuel of the model ran out. -/
def pingLoop : Nat → Nat → ServerSocket → Option (Result Nat × ServerSocket)
  | 0, _, _ => none
  | fuel + 1, fop, s =>
    let opcode := fop &&& 0xf
    if 9 = opcode then
      match s.read 1 with
      | none => some (.system_error, { s with inp := [] })
      | some (b, s) =>
        let mpay := b.headD 0
        let maskbit := mpay &&& 0x80
        let paylen := mpay &&& 0x7f
        if maskbit ≠ 0 then some (.SilentException, s)
        else
          match (if 0 < paylen then s.read paylen else some ([], s)) with
          | none => some (.system_error, { s with inp := [] })
          | some (data, s) =>
            let s := s.Send [0x8a, paylen]
            let s := if 0 < paylen then s.Send data else s
            match s.read 1 with
            | none => some (.system_error, { s with inp := [] })
            | some (b, s) => pingLoop fuel (b.headD 0) s
    else some (.ret fop, s)

/-- The `uint32_t` stored at byte offset `off` (little-endian host). Memory
outside the modelled region reads as 0. -/
def load32 (mem : Bytes) (off : Nat) : Nat :=
  mem.getD off 0 + mem.getD (off + 1) 0 * 2 ^ 8 + mem.getD (off + 2) 0 * 2 ^ 16
    + mem.getD (off + 3) 0 * 2 ^ 24

/-- Store the `uint32_t` `w` at byte offset `off` (little-endian host). A
store outside the modelled region is dropped. -/
def store32 (mem : Bytes) (off : Nat) (w : Nat) : Bytes :=
  (((mem.set off (w % 256)).set (off + 1) (w / 2 ^ 8 % 256)).set (off + 2)
    (w / 2 ^ 16 % 256)).set (off + 3) (w / 2 ^ 24 % 256)

/-- The bulk loop `while (i < paylen) { *dp = *dp ^ mask; ++dp; i += 4; }`
with `dp` at byte offset `i` of `data`. Returns the final `i` and the memory.
The fuel passed by the caller is `paylen`, which covers every iteration
(`bulkLoop_fst`). -/
def bulkLoop (mask paylen : Nat) : Nat → Nat → Bytes → Nat × Bytes
  | 0, i, mem => (i, mem)
  | fuel + 1, i, mem =>
    if i < paylen then
      bulkLoop mask paylen fuel (i + 4) (store32 mem i (load32 mem i ^^^ mask))
    else (i, mem)

/-- The remainder loop
`for (unsigned int j=0; j<i%4; j++) data[i+j] = data[i+j] ^ ((mask >> (8*j)) & 0xff);`
with `i` a `size_t`. -/
def tailLoop (mask i : Nat) (mem : Bytes) : Bytes :=
  (List.range (i % 4)).foldl
    (fun mem j =>
      let k := (i + j) % 2 ^ 64
      mem.set k ((mem.getD k 0 ^^^ ((mask >>> (8 * j)) &&& 0xff)) % 256))
    mem

/-- The text-frame part of `get_websocket_line`, after the ping loop: `fop` is
the header byte that ended the loop. `behind` is the memory that follows the
`paylen+1` bytes of `blob` (the spare capacity of the string and what lies
after it): the bulk loop works on whole 32-bit words and may reach into it. -/
def textFrame (behind : Bytes) (fop : Nat) (s : ServerSocket) :
    Result Bytes × ServerSocket :=
  let opcode := fop &&& 0xf
  if 8 = opcode then (.SilentException, s)
  else if 1 ≠ opcode then (.SilentException, s)
  else
    match s.read 1 with
    | none => (.system_error, { s with inp := [] })
    | some (b, s) =>
      let mpay := b.headD 0
      let maskbit := mpay &&& 0x80
      let paylen := mpay &&& 0x7f
      if maskbit = 0 then (.SilentException, s)
      else
        match s.read 4 with
        | none => (.system_error, { s with inp := [] })
        | some (mk, s) =>
          let mask := load32 mk 0
          match s.read paylen with
          | none => (.system_error, { s with inp := [] })
          | some (pl, s) =>
            -- blob.resize(paylen+1); the payload is read into its first bytes
            let data := pl ++ [0] ++ behind
            let r := bulkLoop mask paylen paylen 0 data
            let i := (r.1 + 2 ^ 64 - 4) % 2 ^ 64
            let data := tailLoop mask i r.2
            let data := data.set paylen 0
            (.ret (data.take (paylen + 1)), s)

/-- `ServerSocket::get_websocket_line`. `none`: the fuel of the model ran out,
which does not happen (`get_websocket_line_isSome`). -/
def get_websocket_line (behind : Bytes) (s : ServerSocket) :
    Option (Result Bytes × ServerSocket) :=
  match s.read 1 with
  | none => some (.system_error, { s with inp := [] })
  | some (b, s) =>
    match pingLoop (s.inp.length + 1) (b.headD 0) s with
    | none => none
    | some (.ret fop, s) => some (textFrame behind fop s)
    | some (.SilentException, s) => some (.SilentException, s)
    | some (.system_error, s) => some (.system_error, s)

/-- A connection on which nothing was received or sent yet. -/
def fresh (inp : Bytes) : ServerSocket :=
  { inp := inp, out := [], _got_first_line := false, _got_http_header := false,
    _got_websock_header := false, _do_frame_io := false, _url := [], _webkey := [] }

/-- The masked payload a client sends: byte `k` XOR-ed with `m[k mod 4]`. -/
def maskPayload (m p : Bytes) : Bytes :=
  p.enum.map fun kb => kb.2 ^^^ m.getD (kb.1 % 4) 0

/-- The client text frame with header byte `fop`:
`[fop, 0x80 | len] ++ m ++ masked p`. -/
def textFrameBytes (fop : Nat) (m p : Bytes) : Bytes :=
  [fop, 0x80 ||| p.length] ++ m ++ maskPayload m p

/-- A sequence of unmasked ping frames, each given by its header byte and its
payload: `[fop, len] ++ payload`. -/
def pingFrames : List (Nat × Bytes) → Bytes
  | [] => []
  | fp :: ps => fp.1 :: fp.2.length :: fp.2 ++ pingFrames ps

/-- The pongs answering a sequence of pings: `[0x8a, len] ++ payload` each. -/
def pongFrames : List (Nat × Bytes) → Bytes
  | [] => []
  | fp :: ps => 0x8a :: fp.2.length :: fp.2 ++ pongFrames ps

/-- Each header byte carries opcode 9 and each payload has at most 127 bytes. -/
def validPings (ps : List (Nat × Bytes)) : Prop :=
  ∀ fp ∈ ps, fp.1 &&& 0xf = 9 ∧ fp.2.length ≤ 127

instance (ps : List (Nat × Bytes)) : Decidable (validPings ps) := by
  unfold validPings; infer_instance

/-! ## `base64_encode` -/

/-- The string literal indexed in `base64_encode`. -/
def alphabet : Bytes :=
  str "ABCDEFGHIJKLMNOPQRSTUVWXYZabcdefghijklmnopqrstuvwxyz0123456789+/"

/-- The inner loop `while (valb >= 0) { out.push_back(...[(val>>valb)&0x3F]); valb -= 6; }`.
The caller passes `valb + 1` as fuel, which covers every iteration. -/
def emitLoop (val : Nat) : Nat → Int → Bytes → Int × Bytes
  | 0, valb, out => (valb, out)
  | fuel + 1, valb, out =>
    if valb ≥ 0 then
      emitLoop val fuel (valb - 6)
        (out ++ [alphabet.getD ((val >>> valb.toNat) &&& 0x3F) 0])
    else (valb, out)

/-- The body of `for (int i=0; i<len; i++)` for the byte `c = buf[i]`, on the
state `(val, valb, out)`; `val` is an `unsigned int`. -/
def b64Step (st : Nat × Int × Bytes) (c : Nat) : Nat × Int × Bytes :=
  let val := (st.1 <<< 8 + c) % 2 ^ 32
  let valb := st.2.1 + 8
  let r := emitLoop val (valb.toNat + 1) valb st.2.2
  (val, r.1, r.2)

/-- The padding loop `while (out.size()%4) out.push_back('=');`. Three
iterations always suffice. -/
def padLoop : Nat → Bytes → Bytes
  | 0, out => out
  | fuel + 1, out => if out.length % 4 ≠ 0 then padLoop fuel (out ++ [61]) else out

/-- The end of `base64_encode`, after the `for` loop, on its final state
`(val, valb, out)`: the last partial group and the padding. -/
def b64Tail (st : Nat × Int × Bytes) : Bytes :=
  let val := st.1
  let valb := st.2.1
  let out := st.2.2
  let out :=
    if valb > -6 then
      out ++ [alphabet.getD ((((val <<< 8) % 2 ^ 32) >>> (valb + 8).toNat) &&& 0x3F) 0]
    else out
  padLoop 3 out

/-- The function `base64_encode(buf, len)`. -/
def base64_encode (buf : Bytes) (len : Nat) : Bytes :=
  b64Tail ((buf.take len).foldl b64Step (0, -6, []))

/-! ## Base64 of RFC 4648, written from the standard -/

/-- The character of the 6-bit value `v` in the standard alphabet:
`A`-`Z`, `a`-`z`, `0`-`9`, `+`, `/`. -/
def rfc4648_char (v : Nat) : Nat :=
  if v < 26 then 65 + v else if v < 52 then 97 + (v - 26)
  else if v < 62 then 48 + (v - 52) else if v = 62 then 43 else 47

/-- The 6-bit value of a character of the standard alphabet. -/
def rfc4648_value (c : Nat) : Option Nat :=
  if 65 ≤ c ∧ c ≤ 90 then some (c - 65)
  else if 97 ≤ c ∧ c ≤ 122 then some (c - 97 + 26)
  else if 48 ≤ c ∧ c ≤ 57 then some (c - 48 + 52)
  else if c = 43 then some 62
  else if c = 47 then some 63
  else none

/-- Standard base64 encoding with `=` padding: three bytes give four
characters; a last group of one or two bytes is zero-extended and padded. -/
def rfc4648_encode : Bytes → Bytes
  | [] => []
  | [a] => [rfc4648_char (a / 4), rfc4648_char (a % 4 * 16), 61, 61]
  | [a, b] =>
    [rfc4648_char (a / 4), rfc4648_char (a % 4 * 16 + b / 16), rfc4648_char (b % 16 * 4), 61]
  | a :: b :: c :: rest =>
    rfc4648_char (a / 4) :: rfc4648_char (a % 4 * 16 + b / 16)
      :: rfc4648_char (b % 16 * 4 + c / 64) :: rfc4648_char (c % 64) :: rfc4648_encode rest

/-- Standard base64 decoding: four characters give three bytes; `=` padding
is accepted in the last group only. -/
def rfc4648_decode : Bytes → Option Bytes
  | [] => some []
  | c1 :: c2 :: c3 :: c4 :: rest =>
    match rfc4648_value c1, rfc4648_value c2 with
    | some v1, some v2 =>
      if c4 = 61 then
        if rest ≠ [] then none
        else if c3 = 61 then some [v1 * 4 + v2 / 16]
        else
          match rfc4648_value c3 with
          | some v3 => some [v1 * 4 + v2 / 16, v2 % 16 * 16 + v3 / 4]
          | none => none
      else
        match rfc4648_value c3, rfc4648_value c4, rfc4648_decode rest with
        | some v3, some v4, some r =>
          some ((v1 * 4 + v2 / 16) :: (v2 % 16 * 16 + v3 / 4) :: (v3 % 4 * 64 + v4) :: r)
        | _, _, _ => none
    | _, _ => none
  | _ => none

/-! ## `SHA1` (OpenSSL), after FIPS 180-4 -/

/-- Rotate a 32-bit word left by `n` bits. -/
def rotl32 (x n : Nat) : Nat := ((x <<< n) % 2 ^ 32) ||| (x >>> (32 - n))

/-- Big-endian bytes of `x`, `n` of them. -/
def beBytes (n x : Nat) : Bytes := (List.range n).map fun i => x / 2 ^ (8 * (n - 1 - i)) % 256

/-- Big-endian value of a byte string. -/
def beNat (b : Bytes) : Nat := b.foldl (fun acc x => acc * 256 + x) 0

/-- Message padding: a `1` bit, zeros, and the 64-bit bit length. -/
def sha1Pad (msg : Bytes) : Bytes :=
  msg ++ [0x80] ++ List.replicate ((119 - msg.length % 64) % 64) 0 ++ beBytes 8 (8 * msg.length)

/-- Cut into pieces of `n` bytes. -/
def chunks (n : Nat) : Nat → Bytes → List Bytes
  | 0, _ => []
  | fuel + 1, b => if b = [] then [] else b.take n :: chunks n fuel (b.drop n)

/-- The 80-word message schedule of one 64-byte block. -/
def sha1Schedule (block : Bytes) : List Nat :=
  (List.range 64).foldl
    (fun w t =>
      w ++ [rotl32 (w.getD (t + 13) 0 ^^^ w.getD (t + 8) 0 ^^^ w.getD (t + 2) 0 ^^^ w.getD t 0) 1])
    ((chunks 4 16 block).map beNat)

/-- One of the 80 rounds. -/
def sha1Round (w : List Nat) (st : Nat × Nat × Nat × Nat × Nat) (t : Nat) :
    Nat × Nat × Nat × Nat × Nat :=
  let (a, b, c, d, e) := st
  let f :=
    if t < 20 then (b &&& c) ||| ((b ^^^ 0xffffffff) &&& d)
    else if t < 40 then b ^^^ c ^^^ d
    else if t < 60 then (b &&& c) ||| (b &&& d) ||| (c &&& d)
    else b ^^^ c ^^^ d
  let k :=
    if t < 20 then 0x5a827999 else if t < 40 then 0x6ed9eba1
    else if t < 60 then 0x8f1bbcdc else 0xca62c1d6
  ((rotl32 a 5 + f + e + k + w.getD t 0) % 2 ^ 32, a, rotl32 b 30, c, d)

/-- Process one block. -/
def sha1Block (h : Nat × Nat × Nat × Nat × Nat) (block : Bytes) :
    Nat × Nat × Nat × Nat × Nat :=
  let w := sha1Schedule block
  let (a, b, c, d, e) := (List.range 80).foldl (sha1Round w) h
  ((h.1 + a) % 2 ^ 32, (h.2.1 + b) % 2 ^ 32, (h.2.2.1 + c) % 2 ^ 32,
    (h.2.2.2.1 + d) % 2 ^ 32, (h.2.2.2.2 + e) % 2 ^ 32)

/-- The library function `SHA1(data, len, hash)`: the 20-byte digest. -/
def SHA1 (msg : Bytes) : Bytes :=
  let p := sha1Pad msg
  let (a, b, c, d, e) :=
    (chunks 64 p.length p).foldl sha1Block
      (0x67452301, 0xefcdab89, 0x98badcfe, 0x10325476, 0xc3d2e1f0)
  beBytes 4 a ++ beBytes 4 b ++ beBytes 4 c ++ beBytes 4 d ++ beBytes 4 e

/-! ## `HandshakeLine` and `WebServer::OnConnection` -/

/-- The value `std::string::npos`. -/
def npos : Nat := 2 ^ 64 - 1

/-- The call `line.find(" ", pos)` for a one-character needle `c`: the first
index `>= pos` holding `c`, or `npos`. -/
def find (line : Bytes) (c pos : Nat) : Nat :=
  match (line.drop pos).indexOf? c with
  | some k => pos + k
  | none => npos

/-- The call `line.substr(pos, n)` for `pos <= line.size()`. -/
def substr (line : Bytes) (pos n : Nat) : Bytes := (line.drop pos).take n

/-- The response to a first line that is not a `GET`. -/
def notImplemented : Bytes :=
  str "HTTP/1.1 501 Not Implemented\r\nServer: CogServer\r\n\r\n"

/-- The header prefix `upg`. -/
def upg : Bytes := str "Upgrade: websocket"

/-- The header prefix `key`. -/
def key : Bytes := str "Sec-WebSocket-Key: "

/-- The fixed GUID appended to the client key. -/
def guid : Bytes := str "258EAFA5-E914-47DA-95CA-C5AB0DC85B11"

/-- The switching-protocols response carrying the accept value `b64hash`. -/
def switchingProtocols (b64hash : Bytes) : Bytes :=
  str "HTTP/1.1 101 Switching Protocols\r\nUpgrade: websocket\r\nConnection: Upgrade\r\nSec-WebSocket-Accept: "
    ++ b64hash ++ str "\r\n\r\n"

/-- `ServerSocket::HandshakeLine(line)`. The virtual `OnConnection()` is the
argument `onConnection`. -/
def HandshakeLine (onConnection : ServerSocket → Result Unit × ServerSocket)
    (line : Bytes) (s : ServerSocket) : Result Unit × ServerSocket :=
  if !s._got_first_line then
    let s := { s with _got_first_line := true }
    if line.take 4 ≠ str "GET " then
      (.SilentException, s.Send notImplemented)
    else
      (.ret (), { s with _url := substr line 4 ((find line 32 4 + 2 ^ 64 - 4) % 2 ^ 64) })
  else
    let s := if !s._got_http_header && line.length == 0
      then { s with _got_http_header := true } else s
    if !s._got_http_header then
      if line.take upg.length = upg then (.ret (), { s with _got_websock_header := true })
      else if line.take key.length = key then
        (.ret (), { s with _webkey := line.drop key.length })
      else (.ret (), s)
    else
      match onConnection s with
      | (.ret (), s) =>
        if !s._got_websock_header then (.SilentException, s)
        else
          let s := { s with _webkey := s._webkey ++ guid }
          let hash := SHA1 s._webkey
          let b64hash := base64_encode hash 20
          let s := s.Send (switchingProtocols b64hash)
          (.ret (), { s with _do_frame_io := true })
      | r => r

/-- `WebServer::html_stats()`. The texts of `cogserver().display_stats()` and
`CogServer::stats_legend()` are the two arguments. -/
def html_stats (display_stats stats_legend : Bytes) : Bytes :=
  str "HTTP/1.1 200 OK\r\nServer: CogServer\r\nContent-Type: text/html\r\n\r\n<!DOCTYPE html><html><head><title>CogServer Stats</title>  <meta charset=\"UTF-8\"></head><body><h2>CogServer Stats</h2><pre>\n"
    ++ display_stats
    ++ str "</pre><h2>Stats Legend</h2><pre>"
    ++ stats_legend
    ++ str "</pre></body></html>"

/-- `WebServer::OnConnection()`. -/
def WebServer.OnConnection (display_stats stats_legend : Bytes) (s : ServerSocket) :
    Result Unit × ServerSocket :=
  if !s._got_websock_header then
    (.SilentException, s.Send (html_stats display_stats stats_legend))
  else (.ret (), s)

/-- The lines of a connection handed to `HandshakeLine` one after the other;
the first exception ends the connection. -/
def feedLines (onConnection : ServerSocket → Result Unit × ServerSocket) :
    List Bytes → ServerSocket → Result Unit × ServerSocket
  | [], s => (.ret (), s)
  | line :: rest, s =>
    match HandshakeLine onConnection line s with
    | (.ret (), s) => feedLines onConnection rest s
    | r => r


/-! ## Unmasking as the spec words it -/

/-- The split of the specification, "processed in 4-byte words for the bulk
and byte-wise for the remainder", not the loops of the source (those are
`unmaskCode`). The `paylen / 4` full words are
XOR-ed with the mask word, then the `paylen % 4` remaining bytes are XOR-ed
one at a time with their mask byte. -/
def unmaskSpec (mask paylen : Nat) (data : Bytes) : Bytes :=
  let words := paylen / 4
  let data := (List.range words).foldl
    (fun d w => store32 d (4 * w) (load32 d (4 * w) ^^^ mask)) data
  (List.range (paylen % 4)).foldl
    (fun d j =>
      d.set (4 * words + j) ((d.getD (4 * words + j) 0 ^^^ ((mask >>> (8 * j)) &&& 0xff)) % 256))
    data

/-- The two unmask loops of `get_websocket_line` on the buffer `data`, as
they stand in `textFrame`: the bulk loop, `i -= 4`, the remainder loop. -/
def unmaskCode (mask paylen : Nat) (data : Bytes) : Bytes :=
  let r := bulkLoop mask paylen paylen 0 data
  tailLoop mask ((r.1 + 2 ^ 64 - 4) % 2 ^ 64) r.2

/-! ## Successive calls of `get_websocket_line` -/

/-- What a client sends for one text message: unmasked pings, then one masked
text frame with header byte `fop`, mask key `m` and payload `p`. -/
structure TextMessage where
  pings : List (Nat × Bytes)
  fop : Nat
  m : Bytes
  p : Bytes

/-- The bytes of a message on the wire. -/
def TextMessage.bytes (f : TextMessage) : Bytes :=
  pingFrames f.pings ++ textFrameBytes f.fop f.m f.p

/-- Valid pings, opcode 1, a 4-byte key, a payload of at most 127 bytes. -/
def TextMessage.valid (f : TextMessage) : Prop :=
  validPings f.pings ∧ f.fop &&& 0xf = 1 ∧ isBytes f.m ∧ f.m.length = 4 ∧ isBytes f.p ∧
    f.p.length ≤ 127

instance (f : TextMessage) : Decidable f.valid := by
  unfold TextMessage.valid; infer_instance

/-- Messages one after the other on the wire. -/
def wireBytes : List TextMessage → Bytes
  | [] => []
  | f :: fs => f.bytes ++ wireBytes fs

/-- The pongs answering the pings of a sequence of messages. -/
def wirePongs : List TextMessage → Bytes
  | [] => []
  | f :: fs => pongFrames f.pings ++ wirePongs fs

/-- The results of `k` successive calls of `get_websocket_line`, in order, and
the socket after the last call. -/
def readLines (behind : Bytes) : Nat → ServerSocket → List (Result Bytes) × ServerSocket
  | 0, s => ([], s)
  | k + 1, s =>
    match get_websocket_line behind s with
    | some (r, s2) => (r :: (readLines behind k s2).1, (readLines behind k s2).2)
    | none => ([], s)

/-! ## The command table of `BuiltinRequestsModule` -/

/-- The arguments of one `DECLARE_CMD_REQUEST(BuiltinRequestsModule, cmd_str,
do_cmd, cmd_sum, cmd_desc, flag1, flag2)`: name, method, one-line summary,
long help text and two flags, kept as data. -/
structure CmdRequest where
  cmd_str : Bytes
  do_cmd : Bytes
  cmd_sum : Bytes
  cmd_desc : Bytes
  flag1 : Bool
  flag2 : Bool
  deriving DecidableEq

/-- The declaration of `exit`. -/
def cmd_exit : CmdRequest :=
  { cmd_str := str "exit", do_cmd := str "do_exit",
    cmd_sum := str "Close the shell connection",
    cmd_desc := str "Usage: exit\n\nClose the shell TCP/IP connection.\n",
    flag1 := false, flag2 := true }

/-- The declaration of `quit`. -/
def cmd_quit : CmdRequest :=
  { cmd_str := str "quit", do_cmd := str "do_quit",
    cmd_sum := str "Close the shell connection",
    cmd_desc := str "Usage: quit\n\nClose the shell TCP/IP connection.\n",
    flag1 := false, flag2 := false }

/-- The declaration of `q`. -/
def cmd_q : CmdRequest :=
  { cmd_str := str "q", do_cmd := str "do_q",
    cmd_sum := str "Close the shell connection",
    cmd_desc := str "Usage: q\n\nClose the shell TCP/IP connection.\n",
    flag1 := false, flag2 := true }

/-- The declaration of the EOF marker: its name is the one byte `0x04`
(Ctrl-D), written raw between the quotes in the header. -/
def cmd_ctrld : CmdRequest :=
  { cmd_str := str "\x04", do_cmd := str "do_ctrld",
    cmd_sum := str "Close the shell connection",
    cmd_desc := str "Usage: ^D\n\nClose the shell TCP/IP connection.\n",
    flag1 := false, flag2 := true }

/-- The declaration of `.`. -/
def cmd_dot : CmdRequest :=
  { cmd_str := str ".", do_cmd := str "do_dot",
    cmd_sum := str "Close the shell connection",
    cmd_desc := str "Usage: .\n\nClose the shell TCP/IP connection.\n",
    flag1 := false, flag2 := true }

/-- The declaration of `help`. -/
def cmd_help : CmdRequest :=
  { cmd_str := str "help", do_cmd := str "do_help",
    cmd_sum := str "List the available commands; print help for a specific command",
    cmd_desc := str "Usage: help [<command>]\n\nIf no command is specified, then print a menu of commands.\nOtherwise, print verbose help for the indicated command.\n",
    flag1 := false, flag2 := false }

/-- The declaration of `h`. -/
def cmd_h : CmdRequest :=
  { cmd_str := str "h", do_cmd := str "do_h",
    cmd_sum := str "List the available commands; print help for a specific command",
    cmd_desc := str "Usage: h [<command>]\n\nIf no command is specified, then print a menu of commands.\nOtherwise, print verbose help for the indicated command.\n",
    flag1 := false, flag2 := true }

/-- The declaration of `stats`. -/
def cmd_stats : CmdRequest :=
  { cmd_str := str "stats", do_cmd := str "do_stats",
    cmd_sum := str "Print some diagnostic statistics about the server.",
    cmd_desc := str "Usage: stats\n\nThe current date in UTC is printed, followed by:\n  up-since: the date when the server was started.\n  last: the date when the most recent connection was opened.\n  tot-cnct: grand total number of network connections opened.\n  cur-open-socks: number of currently open connections.\n  num-open-fds: number of open file descriptors.\n  stalls: times that open stalled due to hitting max-open-cnt.\n  tot-lines: total number of newlines received by all shells.\n  cpu user sys: number of CPU seconds used by server.\n  maxrss: resident set size, in KB. Taken from `getrusage`.\n\nThe table shows a list of the currently open connections.\nThe table header has the following form:\nOPEN-DATE THREAD STATE NLINE LAST-ACTIVITY U SHEL QZ E PENDG\nThe columns are:\n  OPEN-DATE -- when the connection was opened.\n  THREAD -- the Linux thread-id, as printed by `ps -eLf`\n  STATE -- several states possible; `iwait` means waiting for input.\n  NLINE -- number of newlines received by the shell.\n  LAST-ACTIVITY -- the last time anything was received.\n  U -- use count. The number of active handlers for the socket.\n  SHEL -- the current shell processor for the socket.\n  QZ -- size of the unprocessed (pending) request queue.\n  E -- `T` if the shell evaluator is running, else `F`.\n  PENDG -- number of bytes of output not yet sent.\n\n",
    flag1 := false, flag2 := false }

/-- The `DECLARE_CMD_REQUEST` declarations of `BuiltinRequestsModule`, in
the order of the header. -/
def builtinCommands : List CmdRequest :=
  [cmd_exit, cmd_quit, cmd_q, cmd_ctrld, cmd_dot, cmd_help, cmd_h, cmd_stats]

/-! ## The words and bytes the bulk loop touches -/

/-- The byte offsets at which the body of the bulk loop
`while (i < paylen) { *dp = *dp ^ mask; ++dp; i += 4; }` runs, in order: the
control flow of `bulkLoop` without the memory (`bulkLoop_eq_offsets`). -/
def bulkOffsets (paylen : Nat) : Nat → Nat → List Nat
  | 0, _ => []
  | fuel + 1, i => if i < paylen then i :: bulkOffsets paylen fuel (i + 4) else []

/-- The byte indices of `data` read and written by `*dp = *dp ^ mask` for the
words at the given offsets: four per word. -/
def touchedBytes : List Nat → List Nat
  | [] => []
  | off :: offs => off :: (off + 1) :: (off + 2) :: (off + 3) :: touchedBytes offs

/-! ## The command menu and the owner of the handshake, after the spec -/

/-- Modelled from the spec: the menu printed by `help` without an argument.
The help request and the command registry are declared in other files of the
server (`DECLARE_CMD_REQUEST` only names them). The spec: "print the full
command menu (name + one-line summary per registered, non-hidden command)".
Which commands are hidden is the argument `hidden`. -/
def helpMenu (hidden : CmdRequest → Bool) (registry : List CmdRequest) : List (Bytes × Bytes) :=
  (registry.filter fun c => !hidden c).map fun c => (c.cmd_str, c.cmd_sum)

theorem xor_split (k a b c d : Nat) (ha : a < 2 ^ k) (hc : c < 2 ^ k) :
    (a + b * 2 ^ k) ^^^ (c + d * 2 ^ k) = (a ^^^ c) + (b ^^^ d) * 2 ^ k := by
  apply Nat.eq_of_testBit_eq
  intro j
  have h1 : a + b * 2 ^ k = 2 ^ k * b + a := by ring
  have h2 : c + d * 2 ^ k = 2 ^ k * d + c := by ring
  have h3 : (a ^^^ c) + (b ^^^ d) * 2 ^ k = 2 ^ k * (b ^^^ d) + (a ^^^ c) := by ring
  rw [h1, h2, h3, Nat.testBit_xor, Nat.testBit_mul_pow_two_add _ ha,
    Nat.testBit_mul_pow_two_add _ hc, Nat.testBit_mul_pow_two_add _ (Nat.xor_lt_two_pow ha hc)]
  split <;> simp [Nat.testBit_xor]

theorem xor_word (b0 b1 b2 b3 m0 m1 m2 m3 : Nat) (hb0 : b0 < 256) (hb1 : b1 < 256)
    (hb2 : b2 < 256) (hm0 : m0 < 256) (hm1 : m1 < 256) (hm2 : m2 < 256) :
    (b0 + b1 * 2 ^ 8 + b2 * 2 ^ 16 + b3 * 2 ^ 24) ^^^ (m0 + m1 * 2 ^ 8 + m2 * 2 ^ 16 + m3 * 2 ^ 24)
      = (b0 ^^^ m0) + (b1 ^^^ m1) * 2 ^ 8 + (b2 ^^^ m2) * 2 ^ 16 + (b3 ^^^ m3) * 2 ^ 24 := by
  have e1 : b0 + b1 * 2 ^ 8 + b2 * 2 ^ 16 + b3 * 2 ^ 24 = b0 + (b1 + (b2 + b3 * 2 ^ 8) * 2 ^ 8) * 2 ^ 8 := by ring
  have e2 : m0 + m1 * 2 ^ 8 + m2 * 2 ^ 16 + m3 * 2 ^ 24 = m0 + (m1 + (m2 + m3 * 2 ^ 8) * 2 ^ 8) * 2 ^ 8 := by ring
  rw [e1, e2, xor_split 8 _ _ _ _ hb0 hm0, xor_split 8 _ _ _ _ hb1 hm1, xor_split 8 _ _ _ _ hb2 hm2]
  ring

theorem getD_lt_256 {l : Bytes} (h : isBytes l) (k : Nat) : l.getD k 0 < 256 := by
  rw [List.getD_eq_getElem?_getD]
  by_cases hk : k < l.length
  · rw [List.getElem?_eq_getElem hk]
    exact h _ (List.getElem_mem hk)
  · rw [List.getElem?_eq_none (by omega)]
    simp

theorem getD_set (l : Bytes) (i k a : Nat) :
    (l.set i a).getD k 0 = if k = i ∧ i < l.length then a else l.getD k 0 := by
  simp only [List.getD_eq_getElem?_getD, List.getElem?_set]
  by_cases h : i = k
  · subst h
    by_cases h2 : i < l.length
    · simp [h2]
    · simp [h2, List.getElem?_eq_none (Nat.le_of_not_lt h2)]
  · have : ¬ k = i := fun e => h e.symm
    simp [h, this]

theorem store32_length (mem : Bytes) (i w : Nat) : (store32 mem i w).length = mem.length := by
  simp [store32]

theorem store32_getD (mem : Bytes) (i w k : Nat) :
    (store32 mem i w).getD k 0 =
      if i ≤ k ∧ k < i + 4 ∧ k < mem.length then w / 2 ^ (8 * (k - i)) % 256
      else mem.getD k 0 := by
  unfold store32
  simp only [getD_set, List.length_set]
  by_cases h0 : k = i
  · subst h0
    by_cases hl : k < mem.length <;> simp [hl]
  by_cases h1 : k = i + 1
  · subst h1
    by_cases hl : i + 1 < mem.length <;> simp [hl]
  by_cases h2 : k = i + 2
  · subst h2
    by_cases hl : i + 2 < mem.length <;> simp [hl]
  by_cases h3 : k = i + 3
  · subst h3
    by_cases hl : i + 3 < mem.length <;> simp [hl]
  have : ¬ (i ≤ k ∧ k < i + 4 ∧ k < mem.length) := by omega
  simp [h0, h1, h2, h3, this]

theorem store32_isBytes {mem : Bytes} (h : isBytes mem) (i w : Nat) :
    isBytes (store32 mem i w) := by
  intro b hb
  obtain ⟨k, hk, rfl⟩ := List.getElem_of_mem hb
  have e : (store32 mem i w)[k] = (store32 mem i w).getD k 0 := by
    rw [List.getD_eq_getElem?_getD, List.getElem?_eq_getElem hk]; rfl
  rw [e, store32_getD]
  split
  · exact Nat.mod_lt _ (by norm_num)
  · exact getD_lt_256 h k

theorem xor_word_bytes (b0 b1 b2 b3 m0 m1 m2 m3 : Nat) (hb0 : b0 < 256) (hb1 : b1 < 256)
    (hb2 : b2 < 256) (hb3 : b3 < 256) (hm0 : m0 < 256) (hm1 : m1 < 256) (hm2 : m2 < 256)
    (hm3 : m3 < 256) :
    let w := (b0 + b1 * 2 ^ 8 + b2 * 2 ^ 16 + b3 * 2 ^ 24) ^^^
      (m0 + m1 * 2 ^ 8 + m2 * 2 ^ 16 + m3 * 2 ^ 24)
    w / 2 ^ (8 * 0) % 256 = b0 ^^^ m0 ∧ w / 2 ^ (8 * 1) % 256 = b1 ^^^ m1 ∧
      w / 2 ^ (8 * 2) % 256 = b2 ^^^ m2 ∧ w / 2 ^ (8 * 3) % 256 = b3 ^^^ m3 := by
  intro w
  have hw : w = (b0 ^^^ m0) + (b1 ^^^ m1) * 2 ^ 8 + (b2 ^^^ m2) * 2 ^ 16
      + (b3 ^^^ m3) * 2 ^ 24 := xor_word _ _ _ _ _ _ _ _ hb0 hb1 hb2 hm0 hm1 hm2
  have x0 : b0 ^^^ m0 < 256 := Nat.xor_lt_two_pow (n := 8) hb0 hm0
  have x1 : b1 ^^^ m1 < 256 := Nat.xor_lt_two_pow (n := 8) hb1 hm1
  have x2 : b2 ^^^ m2 < 256 := Nat.xor_lt_two_pow (n := 8) hb2 hm2
  have x3 : b3 ^^^ m3 < 256 := Nat.xor_lt_two_pow (n := 8) hb3 hm3
  generalize b0 ^^^ m0 = y0 at *
  generalize b1 ^^^ m1 = y1 at *
  generalize b2 ^^^ m2 = y2 at *
  generalize b3 ^^^ m3 = y3 at *
  rw [hw]
  norm_num
  omega

theorem word_byte {mem m : Bytes} (hmem : isBytes mem) (hm : isBytes m) (i j : Nat)
    (hj : j < 4) :
    (load32 mem i ^^^ load32 m 0) / 2 ^ (8 * j) % 256 = mem.getD (i + j) 0 ^^^ m.getD j 0 := by
  have h := xor_word_bytes _ _ _ _ _ _ _ _ (getD_lt_256 hmem i) (getD_lt_256 hmem (i + 1))
    (getD_lt_256 hmem (i + 2)) (getD_lt_256 hmem (i + 3)) (getD_lt_256 hm 0)
    (getD_lt_256 hm (0 + 1)) (getD_lt_256 hm (0 + 2)) (getD_lt_256 hm (0 + 3))
  unfold load32
  interval_cases j
  · exact h.1
  · exact h.2.1
  · exact h.2.2.1
  · exact h.2.2.2

theorem bulkLoop_spec {m : Bytes} (hm : isBytes m) (paylen : Nat) :
    ∀ (fuel i : Nat) (mem : Bytes), i % 4 = 0 → isBytes mem → paylen ≤ i + 4 * fuel →
      (bulkLoop (load32 m 0) paylen fuel i mem).1 = i + 4 * ((paylen - i + 3) / 4) ∧
      (bulkLoop (load32 m 0) paylen fuel i mem).2.length = mem.length ∧
      ∀ k, (bulkLoop (load32 m 0) paylen fuel i mem).2.getD k 0 =
        if i ≤ k ∧ k < i + 4 * ((paylen - i + 3) / 4) ∧ k < mem.length
        then mem.getD k 0 ^^^ m.getD (k % 4) 0 else mem.getD k 0 := by
  intro fuel
  induction fuel with
  | zero =>
    intro i mem _ _ hle
    have e : (paylen - i + 3) / 4 = 0 := by omega
    rw [e]
    refine ⟨by simp [bulkLoop], rfl, fun k => ?_⟩
    have : ¬ (i ≤ k ∧ k < i + 4 * 0 ∧ k < mem.length) := by omega
    rw [if_neg this]
    rfl
  | succ fuel ih =>
    intro i mem hi hmem hle
    unfold bulkLoop
    by_cases hlt : i < paylen
    · rw [if_pos hlt]
      obtain ⟨h1, h2, h3⟩ := ih (i + 4) (store32 mem i (load32 mem i ^^^ load32 m 0))
        (by omega) (store32_isBytes hmem _ _) (by omega)
      have hE : i + 4 + 4 * ((paylen - (i + 4) + 3) / 4) = i + 4 * ((paylen - i + 3) / 4) := by
        omega
      rw [hE] at h1 h3
      refine ⟨h1, by rw [h2, store32_length], fun k => ?_⟩
      rw [h3 k, store32_length, store32_getD]
      by_cases hk1 : i ≤ k ∧ k < i + 4 ∧ k < mem.length
      · have hk2 : ¬ (i + 4 ≤ k ∧ k < i + 4 * ((paylen - i + 3) / 4) ∧ k < mem.length) := by
          omega
        have hk3 : i ≤ k ∧ k < i + 4 * ((paylen - i + 3) / 4) ∧ k < mem.length := by omega
        rw [if_neg hk2, if_pos hk1, if_pos hk3, word_byte hmem hm i (k - i) (by omega)]
        have e1 : i + (k - i) = k := by omega
        have e2 : k - i = k % 4 := by omega
        rw [e1, e2]
      · rw [if_neg hk1]
        by_cases hk2 : i + 4 ≤ k ∧ k < i + 4 * ((paylen - i + 3) / 4) ∧ k < mem.length
        · have hk3 : i ≤ k ∧ k < i + 4 * ((paylen - i + 3) / 4) ∧ k < mem.length := by omega
          rw [if_pos hk2, if_pos hk3]
        · have hk3 : ¬ (i ≤ k ∧ k < i + 4 * ((paylen - i + 3) / 4) ∧ k < mem.length) := by
            omega
          rw [if_neg hk2, if_neg hk3]
    · have e : (paylen - i + 3) / 4 = 0 := by omega
      rw [if_neg hlt, e]
      refine ⟨by simp, rfl, fun k => ?_⟩
      have : ¬ (i ≤ k ∧ k < i + 4 * 0 ∧ k < mem.length) := by omega
      rw [if_neg this]

theorem tailLoop_of_mod (mask i : Nat) (mem : Bytes) (h : i % 4 = 0) :
    tailLoop mask i mem = mem := by
  simp [tailLoop, h]

theorem maskPayload_length (m p : Bytes) : (maskPayload m p).length = p.length := by
  simp [maskPayload]

theorem maskPayload_getD (m p : Bytes) (k : Nat) (hk : k < p.length) :
    (maskPayload m p).getD k 0 = p.getD k 0 ^^^ m.getD (k % 4) 0 := by
  simp [maskPayload, List.getD_eq_getElem?_getD, List.getElem?_eq_getElem, hk]

theorem maskPayload_isBytes {m p : Bytes} (hm : isBytes m) (hp : isBytes p) :
    isBytes (maskPayload m p) := by
  intro b hb
  obtain ⟨k, hk, rfl⟩ := List.getElem_of_mem hb
  have hk2 : k < p.length := by simpa [maskPayload] using hk
  have e : (maskPayload m p)[k] = (maskPayload m p).getD k 0 := by
    rw [List.getD_eq_getElem?_getD, List.getElem?_eq_getElem hk]; rfl
  rw [e, maskPayload_getD m p k hk2]
  exact Nat.xor_lt_two_pow (n := 8) (getD_lt_256 hp k) (getD_lt_256 hm _)

/-- The unmasking code of `get_websocket_line`, on the buffer holding the masked payload. -/
theorem unmask_blob {m p behind : Bytes} (hm : isBytes m) (hp : isBytes p)
    (hb : isBytes behind) :
    let r := bulkLoop (load32 m 0) p.length p.length 0 (maskPayload m p ++ [0] ++ behind)
    ((tailLoop (load32 m 0) ((r.1 + 2 ^ 64 - 4) % 2 ^ 64) r.2).set p.length 0).take
      (p.length + 1) = p ++ [0] := by
  intro r
  have hmem : isBytes (maskPayload m p ++ [0] ++ behind) := by
    intro b hb2
    simp only [List.mem_append, List.mem_singleton] at hb2
    rcases hb2 with (h | h) | h
    · exact maskPayload_isBytes hm hp b h
    · omega
    · exact hb b h
  obtain ⟨h1, h2, h3⟩ := bulkLoop_spec hm p.length p.length 0 _ (by rfl) hmem (by omega)
  have hr1 : r.1 % 4 = 0 := by
    show (bulkLoop (load32 m 0) p.length p.length 0 _).1 % 4 = 0
    rw [h1]; omega
  rw [tailLoop_of_mod _ _ _ (by omega)]
  have hlen : r.2.length = p.length + 1 + behind.length := by
    show (bulkLoop (load32 m 0) p.length p.length 0 _).2.length = _
    rw [h2]; simp [maskPayload_length]; omega
  apply List.ext_getElem
  · simp [hlen]
  · intro k hk1 hk2
    simp only [List.length_append, List.length_singleton] at hk2
    rw [List.getElem_take]
    by_cases hk : k = p.length
    · subst hk
      simp
    · have hk3 : k < p.length := by omega
      rw [List.getElem_set_ne (by omega), List.getElem_append_left hk3]
      have hkr : k < r.2.length := by rw [hlen]; omega
      have e : r.2[k] = r.2.getD k 0 := by
        rw [List.getD_eq_getElem?_getD, List.getElem?_eq_getElem hkr]; rfl
      rw [e]
      show (bulkLoop (load32 m 0) p.length p.length 0 _).2.getD k 0 = _
      rw [h3 k]
      have hc : 0 ≤ k ∧ k < 0 + 4 * ((p.length - 0 + 3) / 4) ∧
          k < (maskPayload m p ++ [0] ++ behind).length := by
        simp [maskPayload_length]; omega
      rw [if_pos hc]
      have e2 : (maskPayload m p ++ [0] ++ behind).getD k 0 = (maskPayload m p).getD k 0 := by
        simp only [List.getD_eq_getElem?_getD, List.append_assoc]
        rw [List.getElem?_append_left (by rw [maskPayload_length]; exact hk3)]
      rw [e2, maskPayload_getD m p k hk3, Nat.xor_assoc, Nat.xor_self, Nat.xor_zero]
      rw [List.getD_eq_getElem?_getD, List.getElem?_eq_getElem hk3]; rfl

theorem len_bits : ∀ n < 128, n &&& 0x80 = 0 ∧ n &&& 0x7f = n ∧
    (0x80 ||| n) &&& 0x80 ≠ 0 ∧ (0x80 ||| n) &&& 0x7f = n := by decide

theorem pingLoop_pings (fop : Nat) (rest : Bytes) (hfop : fop &&& 0xf ≠ 9) :
    ∀ (ps : List (Nat × Bytes)), validPings ps →
      ∀ (fuel h : Nat) (t out : Bytes) (g1 g2 g3 g4 : Bool) (u w : Bytes),
      h :: t = pingFrames ps ++ fop :: rest → ps.length < fuel →
      pingLoop fuel h ⟨t, out, g1, g2, g3, g4, u, w⟩
        = some (.ret fop, ⟨rest, out ++ pongFrames ps, g1, g2, g3, g4, u, w⟩) := by
  intro ps
  induction ps with
  | nil =>
    intro _ fuel h t out g1 g2 g3 g4 u w e hf
    simp only [pingFrames, List.nil_append, List.cons.injEq] at e
    obtain ⟨rfl, rfl⟩ := e
    obtain ⟨f, rfl⟩ : ∃ f, fuel = f + 1 := ⟨fuel - 1, by simp at hf; omega⟩
    have : ¬ (9 = h &&& 0xf) := fun e => hfop e.symm
    simp [pingLoop, this, pongFrames]
  | cons fp ps ih =>
    intro hv fuel h t out g1 g2 g3 g4 u w e hf
    obtain ⟨f, rfl⟩ : ∃ f, fuel = f + 1 := ⟨fuel - 1, by simp at hf; omega⟩
    have hfp := hv fp (List.mem_cons_self _ _)
    have hv2 : validPings ps := fun x hx => hv x (List.mem_cons_of_mem _ hx)
    simp only [pingFrames, List.cons_append, List.cons.injEq] at e
    obtain ⟨rfl, rfl⟩ := e
    obtain ⟨b1, b2, -, -⟩ := len_bits fp.2.length (by omega)
    -- the stream after this ping is not empty
    obtain ⟨h2, t2, e2⟩ : ∃ h2 t2, h2 :: t2 = pingFrames ps ++ fop :: rest := by
      cases hps : pingFrames ps ++ fop :: rest with
      | nil => simp at hps
      | cons a l => exact ⟨a, l, rfl⟩
    have := ih hv2 f h2 t2 (out ++ 0x8a :: fp.2.length :: fp.2) g1 g2 g3 g4 u w e2
      (by simp at hf; omega)
    unfold pingLoop
    rw [List.append_assoc, ← e2]
    by_cases hz : 0 < fp.2.length
    · simp [ServerSocket.read, ServerSocket.Send, hfp.1, b1, b2, hz, this, pongFrames]
    · have hnil : fp.2 = [] := List.length_eq_zero.mp (by omega)
      simp only [hnil, List.length_nil, List.append_assoc, List.cons_append, List.nil_append] at this
      simp [ServerSocket.read, ServerSocket.Send, hfp.1, hnil, this, pongFrames]

theorem textFrame_valid (behind : Bytes) {m p : Bytes} (fop : Nat) (hfop : fop &&& 0xf = 1)
    (hm : isBytes m) (hm4 : m.length = 4) (hp : isBytes p) (hp127 : p.length ≤ 127)
    (hb : isBytes behind) (rest out : Bytes) (g1 g2 g3 g4 : Bool) (u w : Bytes) :
    textFrame behind fop
        ⟨(0x80 ||| p.length) :: (m ++ maskPayload m p ++ rest), out, g1, g2, g3, g4, u, w⟩
      = (.ret (p ++ [0]), ⟨rest, out, g1, g2, g3, g4, u, w⟩) := by
  obtain ⟨-, -, b3, b4⟩ := len_bits p.length (by omega)
  have hu := unmask_blob hm hp hb
  have hml : (maskPayload m p).length = p.length := maskPayload_length m p
  unfold textFrame
  simp only [hfop, ServerSocket.read]
  simp [b3, b4, hm4, hml]
  simpa using hu

theorem read_some_length {s s2 : ServerSocket} {n : Nat} {b : Bytes}
    (h : s.read n = some (b, s2)) : s2.inp.length + n = s.inp.length := by
  unfold ServerSocket.read at h
  split at h
  · simp only [Option.some.injEq, Prod.mk.injEq] at h
    rw [← h.2]
    simp
    omega
  · simp at h

theorem pingLoop_isSome : ∀ (fuel fop : Nat) (s : ServerSocket), s.inp.length < fuel →
    (pingLoop fuel fop s).isSome := by
  intro fuel
  induction fuel with
  | zero => intro _ s h; omega
  | succ f ih =>
    intro fop s h
    unfold pingLoop
    dsimp only
    by_cases h9 : 9 = fop &&& 0xf
    · rw [if_pos h9]
      cases he : s.read 1 with
      | none => simp
      | some bs =>
        obtain ⟨b1, s1⟩ := bs
        have l1 := read_some_length he
        dsimp only
        by_cases hm : b1.headD 0 &&& 0x80 ≠ 0
        · rw [if_pos hm]; simp
        · rw [if_neg hm]
          cases he2 : (if 0 < b1.headD 0 &&& 0x7f then s1.read (b1.headD 0 &&& 0x7f)
              else some ([], s1)) with
          | none => simp
          | some bs2 =>
            obtain ⟨b2, s2⟩ := bs2
            have l2 : s2.inp.length ≤ s1.inp.length := by
              split at he2
              · have := read_some_length he2
                omega
              · simp only [Option.some.injEq, Prod.mk.injEq] at he2
                rw [← he2.2]
            dsimp only
            have e : ∀ (c : Prop) [Decidable c] (x y : Bytes),
                (if c then (s2.Send x).Send y else s2.Send x).inp = s2.inp := by
              intro c _ x y; split <;> rfl
            cases he3 : (if 0 < b1.headD 0 &&& 0x7f
                then (s2.Send [0x8a, b1.headD 0 &&& 0x7f]).Send b2
                else s2.Send [0x8a, b1.headD 0 &&& 0x7f]).read 1 with
            | none => simp
            | some bs3 =>
              obtain ⟨b3, s3⟩ := bs3
              have l3 := read_some_length he3
              rw [e] at l3
              dsimp only
              exact ih _ _ (by omega)
    · rw [if_neg h9]; simp

theorem get_websocket_line_isSome (behind : Bytes) (s : ServerSocket) :
    (get_websocket_line behind s).isSome := by
  unfold get_websocket_line
  split
  · simp
  · rename_i b s2 _
    have := pingLoop_isSome (s2.inp.length + 1) (b.headD 0) s2 (by omega)
    split
    · rename_i h; rw [h] at this; simp at this
    · simp
    · simp
    · simp

/-! ## Frame decoding -/

theorem pingFrames_length (ps : List (Nat × Bytes)) : ps.length ≤ (pingFrames ps).length := by
  induction ps with
  | nil => simp [pingFrames]
  | cons fp ps ih => simp [pingFrames]; omega

theorem gwl_after_pings (behind : Bytes) (ps : List (Nat × Bytes)) (hv : validPings ps)
    (fop : Nat) (hfop : fop &&& 0xf ≠ 9) (rest out : Bytes) (g1 g2 g3 g4 : Bool)
    (u w : Bytes) :
    get_websocket_line behind ⟨pingFrames ps ++ fop :: rest, out, g1, g2, g3, g4, u, w⟩
      = some (textFrame behind fop ⟨rest, out ++ pongFrames ps, g1, g2, g3, g4, u, w⟩) := by
  obtain ⟨h, t, e⟩ : ∃ h t, h :: t = pingFrames ps ++ fop :: rest := by
    cases hps : pingFrames ps ++ fop :: rest with
    | nil => simp at hps
    | cons a l => exact ⟨a, l, rfl⟩
  have hl : ps.length < t.length + 1 := by
    have h1 := congrArg List.length e
    have h2 := pingFrames_length ps
    simp at h1
    omega
  have hp := pingLoop_pings fop rest hfop ps hv (t.length + 1) h t out g1 g2 g3 g4 u w e hl
  unfold get_websocket_line
  rw [← e]
  simp [ServerSocket.read, hp]

/-- C1 (as amended). A masked single-frame text payload `p` of at most 127
bytes with mask key `m`, sent as `[0x81, 0x80 | len(p)] ++ m ++ masked p`, is
returned by `get_websocket_line` as `p` followed by one `0x00` byte; the
frame is consumed and nothing is written. -/
theorem get_websocket_line_roundtrip (behind m p : Bytes) (s : ServerSocket)
    (hm : isBytes m) (hm4 : m.length = 4) (hp : isBytes p) (hp127 : p.length ≤ 127)
    (hb : isBytes behind) :
    get_websocket_line behind { s with inp := textFrameBytes 0x81 m p }
      = some (.ret (p ++ [0]), { s with inp := [] }) := by
  obtain ⟨inp, out, g1, g2, g3, g4, u, w⟩ := s
  have h := gwl_after_pings behind [] (by intro x hx; simp at hx) 0x81 (by decide)
    ((0x80 ||| p.length) :: (m ++ maskPayload m p ++ [])) out g1 g2 g3 g4 u w
  have h2 := textFrame_valid behind 0x81 (by decide) hm hm4 hp hp127 hb [] out
    g1 g2 g3 g4 u w
  simp only [pingFrames, pongFrames, List.nil_append, List.append_nil] at h h2
  simp only [textFrameBytes, List.cons_append, List.nil_append, List.append_assoc]
  rw [h, h2]

/-- C1, witness: the payload `hello` under the key `01 02 03 04`. -/
theorem get_websocket_line_roundtrip_witness :
    get_websocket_line [7, 7, 7] (fresh (textFrameBytes 0x81 [1, 2, 3, 4] (str "hello")))
      = some (.ret (str "hello" ++ [0]), fresh []) :=
  get_websocket_line_roundtrip [7, 7, 7] [1, 2, 3, 4] (str "hello") (fresh [])
    (by decide) (by decide) (by decide) (by decide) (by decide)

/-- C1, counterexample to the claim as stated: for the payload `hi` the
returned string is the three bytes `h`, `i`, `0x00`, not the two-byte text. -/
theorem get_websocket_line_roundtrip_not_exact :
    (get_websocket_line [] (fresh (textFrameBytes 0x81 [1, 2, 3, 4] (str "hi")))).map Prod.fst
        = some (.ret [104, 105, 0]) ∧
      (get_websocket_line [] (fresh (textFrameBytes 0x81 [1, 2, 3, 4] (str "hi")))).map Prod.fst
        ≠ some (.ret (str "hi")) := by
  decide

/-- C2 (as amended). Any number of unmasked ping frames (payloads of at most
127 bytes) followed by one masked text frame with payload `p`: the call
returns one line, `p` followed by one `0x00` byte, whatever the pings carried,
and writes exactly the pongs `[0x8a, len_i] ++ payload_i`, in order. -/
theorem get_websocket_line_pings_then_text (behind : Bytes) (ps : List (Nat × Bytes))
    (fop : Nat) (m p : Bytes) (s : ServerSocket) (hv : validPings ps)
    (hfop : fop &&& 0xf = 1) (hm : isBytes m) (hm4 : m.length = 4) (hp : isBytes p)
    (hp127 : p.length ≤ 127) (hb : isBytes behind) :
    get_websocket_line behind { s with inp := pingFrames ps ++ textFrameBytes fop m p }
      = some (.ret (p ++ [0]), { s with inp := [], out := s.out ++ pongFrames ps }) := by
  obtain ⟨inp, out, g1, g2, g3, g4, u, w⟩ := s
  have h := gwl_after_pings behind ps hv fop (by omega)
    ((0x80 ||| p.length) :: (m ++ maskPayload m p ++ [])) out g1 g2 g3 g4 u w
  have h2 := textFrame_valid behind fop hfop hm hm4 hp hp127 hb []
    (out ++ pongFrames ps) g1 g2 g3 g4 u w
  simp only [List.append_nil] at h h2
  simp only [textFrameBytes, List.cons_append, List.nil_append, List.append_assoc]
  rw [h, h2]

/-- C2, witness: one ping carrying `abc`, then the text `hello`: one line and
one pong. -/
theorem get_websocket_line_pings_then_text_witness :
    get_websocket_line [] (fresh (pingFrames [(0x89, str "abc")]
        ++ textFrameBytes 0x81 [9, 8, 7, 6] (str "hello")))
      = some (.ret (str "hello" ++ [0]),
          { fresh [] with out := [] ++ pongFrames [(0x89, str "abc")] }) :=
  get_websocket_line_pings_then_text [] [(0x89, str "abc")] 0x81 [9, 8, 7, 6] (str "hello")
    (fresh []) (by decide) (by decide) (by decide) (by decide) (by decide) (by decide)
    (by decide)

/-- C2, counterexample to the claim as stated: after one ping the line
returned for the text `ok` is `o`, `k`, `0x00`, not the text itself; the wire
holds the one pong. -/
theorem get_websocket_line_ping_text_not_exact :
    get_websocket_line [] (fresh (pingFrames [(0x89, [5])]
        ++ textFrameBytes 0x81 [1, 2, 3, 4] (str "ok")))
      = some (.ret [111, 107, 0], { fresh [] with out := [0x8a, 1, 5] }) ∧
    (get_websocket_line [] (fresh (pingFrames [(0x89, [5])]
        ++ textFrameBytes 0x81 [1, 2, 3, 4] (str "ok")))).map Prod.fst
      ≠ some (.ret (str "ok")) := by
  decide

/-- C3. A header byte with opcode 8, first or after any number of pings, ends
the call with `SilentException`: no line is returned, nothing after the
header byte is read, and only the pongs of the earlier pings were written. -/
theorem get_websocket_line_close (behind : Bytes) (ps : List (Nat × Bytes)) (fop : Nat)
    (rest : Bytes) (s : ServerSocket) (hv : validPings ps) (hfop : fop &&& 0xf = 8) :
    get_websocket_line behind { s with inp := pingFrames ps ++ fop :: rest }
      = some (.SilentException, { s with inp := rest, out := s.out ++ pongFrames ps }) := by
  obtain ⟨inp, out, g1, g2, g3, g4, u, w⟩ := s
  have h := gwl_after_pings behind ps hv fop (by omega) rest out g1 g2 g3 g4 u w
  simp only []
  rw [h]
  simp [textFrame, hfop]

/-- C3, witness: a close frame `0x88` after two pings. -/
theorem get_websocket_line_close_witness :
    get_websocket_line [] (fresh (pingFrames [(0x89, [1, 2]), (0x09, [])] ++ 0x88 :: [0, 42]))
      = some (.SilentException,
          { fresh [0, 42] with out := [] ++ pongFrames [(0x89, [1, 2]), (0x09, [])] }) :=
  get_websocket_line_close [] [(0x89, [1, 2]), (0x09, [])] 0x88 [0, 42] (fresh [])
    (by decide) (by decide)

/-- C4. A text frame (opcode 1) whose second byte has the bit `0x80` clear is
rejected with `SilentException`, whatever its length bits and whatever
follows: no line, nothing read after the second byte, and nothing written for
that frame (the wire holds the pongs of earlier pings only). -/
theorem get_websocket_line_unmasked_text (behind : Bytes) (ps : List (Nat × Bytes))
    (fop mpay : Nat) (rest : Bytes) (s : ServerSocket) (hv : validPings ps)
    (hfop : fop &&& 0xf = 1) (hmask : mpay &&& 0x80 = 0) :
    get_websocket_line behind { s with inp := pingFrames ps ++ fop :: mpay :: rest }
      = some (.SilentException, { s with inp := rest, out := s.out ++ pongFrames ps }) := by
  obtain ⟨inp, out, g1, g2, g3, g4, u, w⟩ := s
  have h := gwl_after_pings behind ps hv fop (by omega) (mpay :: rest) out g1 g2 g3 g4 u w
  simp only []
  rw [h]
  simp [textFrame, hfop, hmask, ServerSocket.read]

/-- C4, witness: the unmasked text frame `81 05 h e l l o`. -/
theorem get_websocket_line_unmasked_text_witness :
    get_websocket_line [] (fresh (pingFrames [] ++ 0x81 :: 5 :: str "hello"))
      = some (.SilentException, { fresh (str "hello") with out := [] ++ pongFrames [] }) :=
  get_websocket_line_unmasked_text [] [] 0x81 5 (str "hello") (fresh [])
    (by decide) (by decide) (by decide)

/-- C5. A first header byte whose opcode is not 1, 8 or 9 ends the call with
`SilentException`: no line, nothing more read, nothing sent. The outcome of
a call depends on the first header byte through its low four bits only, and a
call that returns a line started with opcode 1 or with a ping. -/
theorem get_websocket_line_unsupported_opcode (behind : Bytes) (fop fop2 : Nat) (rest : Bytes)
    (s : ServerSocket) :
    (fop &&& 0xf ≠ 1 → fop &&& 0xf ≠ 8 → fop &&& 0xf ≠ 9 →
      get_websocket_line behind { s with inp := fop :: rest }
        = some (.SilentException, { s with inp := rest })) ∧
    (fop2 &&& 0xf = fop &&& 0xf →
      get_websocket_line behind { s with inp := fop2 :: rest }
        = get_websocket_line behind { s with inp := fop :: rest }) ∧
    (∀ (line : Bytes) (s2 : ServerSocket),
      get_websocket_line behind { s with inp := fop :: rest } = some (.ret line, s2) →
        fop &&& 0xf = 1 ∨ fop &&& 0xf = 9) := by
  obtain ⟨inp, out, g1, g2, g3, g4, u, w⟩ := s
  have part1 : fop &&& 0xf ≠ 1 → fop &&& 0xf ≠ 9 →
      get_websocket_line behind ⟨fop :: rest, out, g1, g2, g3, g4, u, w⟩
        = some (.SilentException, ⟨rest, out, g1, g2, g3, g4, u, w⟩) := by
    intro h1 h9
    have h := gwl_after_pings behind [] (by intro x hx; simp at hx) fop h9 rest out
      g1 g2 g3 g4 u w
    simp only [pingFrames, pongFrames, List.nil_append, List.append_nil] at h
    rw [h]
    have h1n : ¬ (1 = fop &&& 0xf) := fun e => h1 e.symm
    by_cases h8 : 8 = fop &&& 0xf
    · simp [textFrame, h8]
    · simp [textFrame, h8, h1n]
  refine ⟨?_, ?_, ?_⟩
  rotate_left 2
  · intro line s2 hret
    by_contra hcon
    rw [part1 (fun e => hcon (Or.inl e)) (fun e => hcon (Or.inr e))] at hret
    simp at hret
  · intro h1 h8 h9
    have h := gwl_after_pings behind [] (by intro x hx; simp at hx) fop h9 rest out
      g1 g2 g3 g4 u w
    simp only [pingFrames, pongFrames, List.nil_append, List.append_nil] at h
    simp only []
    rw [h]
    have h8n : ¬ (8 = fop &&& 0xf) := fun e => h8 e.symm
    have h1n : ¬ (1 = fop &&& 0xf) := fun e => h1 e.symm
    simp [textFrame, h8n, h1n]
  · intro he
    simp only [get_websocket_line, ServerSocket.read, List.length_cons]
    have e1 : 1 ≤ rest.length + 1 := by omega
    simp only [e1, if_true, List.take_succ_cons, List.take_zero, List.drop_succ_cons,
      List.drop_zero, List.headD_cons]
    by_cases h9 : fop &&& 0xf = 9
    · have h9n : fop2 &&& 0xf = 9 := by omega
      unfold pingLoop
      simp only [h9, h9n]
      rfl
    · have h9n : ¬ fop2 &&& 0xf = 9 := by omega
      have a : ¬ (9 = fop &&& 0xf) := fun e => h9 e.symm
      have b : ¬ (9 = fop2 &&& 0xf) := fun e => h9n e.symm
      unfold pingLoop
      simp only [a, b, if_false]
      simp only [textFrame, he]

/-- C5, witness: a binary frame `0x82`, and `0x02` (FIN clear) against it. -/
theorem get_websocket_line_unsupported_opcode_witness :
    get_websocket_line [] (fresh (0x82 :: [3, 1, 2, 3])) = some (.SilentException, fresh [3, 1, 2, 3])
      ∧ get_websocket_line [] (fresh (0x02 :: [3, 1, 2, 3]))
        = get_websocket_line [] (fresh (0x82 :: [3, 1, 2, 3])) :=
  ⟨(get_websocket_line_unsupported_opcode [] 0x82 0x02 [3, 1, 2, 3] (fresh [])).1
      (by decide) (by decide) (by decide),
    (get_websocket_line_unsupported_opcode [] 0x82 0x02 [3, 1, 2, 3] (fresh [])).2.1
      (by decide)⟩

/-! ## Base64 -/

theorem alphabet_getD : ∀ k < 64, alphabet.getD k 0 = rfc4648_char k := by decide

theorem rfc4648_value_char : ∀ k < 64, rfc4648_value (rfc4648_char k) = some k := by decide

theorem rfc4648_char_ne_pad : ∀ k < 64, rfc4648_char k ≠ 61 := by decide

theorem shr_and (x n : Nat) : (x >>> n) &&& 0x3F = x / 2 ^ n % 64 := by
  rw [Nat.shiftRight_eq_div_pow]
  exact Nat.and_pow_two_sub_one_eq_mod _ 6

theorem and63 (x : Nat) : x &&& 63 = x % 64 := Nat.and_pow_two_sub_one_eq_mod x 6

theorem b64Step_m6 (v : Nat) (out : Bytes) (a : Nat) :
    b64Step (v, -6, out) a = ((v * 256 + a) % 2 ^ 32, -4,
      out ++ [alphabet.getD ((v * 256 + a) % 2 ^ 32 / 2 ^ 2 % 64) 0]) := by
  simp [b64Step, emitLoop, Nat.shiftLeft_eq, shr_and]

theorem b64Step_m4 (v : Nat) (out : Bytes) (a : Nat) :
    b64Step (v, -4, out) a = ((v * 256 + a) % 2 ^ 32, -2,
      out ++ [alphabet.getD ((v * 256 + a) % 2 ^ 32 / 2 ^ 4 % 64) 0]) := by
  simp [b64Step, emitLoop, Nat.shiftLeft_eq, shr_and]

theorem b64Step_m2 (v : Nat) (out : Bytes) (a : Nat) :
    b64Step (v, -2, out) a = ((v * 256 + a) % 2 ^ 32, -6,
      out ++ [alphabet.getD ((v * 256 + a) % 2 ^ 32 / 2 ^ 6 % 64) 0,
        alphabet.getD ((v * 256 + a) % 2 ^ 32 % 64) 0]) := by
  simp [b64Step, emitLoop, Nat.shiftLeft_eq, shr_and, and63, Nat.shiftRight_eq_div_pow]

theorem padLoop_of_mod (out : Bytes) (h : out.length % 4 = 0) : padLoop 3 out = out := by
  simp [padLoop, h]

theorem b64Tail_m6 (v : Nat) (out : Bytes) (h : out.length % 4 = 0) :
    b64Tail (v, -6, out) = out := by
  simp [b64Tail, padLoop_of_mod out h]

theorem b64Tail_m4 (v : Nat) (out : Bytes) (h : out.length % 4 = 1) :
    b64Tail (v, -4, out) = out ++ [alphabet.getD (v * 256 % 2 ^ 32 / 2 ^ 4 % 64) 0, 61, 61] := by
  have h1 : ¬ (out.length + 1) % 4 = 0 := by omega
  have h2 : (out.length + 2) % 4 = 0 ↔ out.length % 4 = 2 := by omega
  have h3 : (out.length + 3) % 4 = 0 ↔ out.length % 4 = 1 := by omega
  simp [b64Tail, padLoop, Nat.shiftLeft_eq, shr_and, h, h1, h2, h3]

theorem b64Tail_m2 (v : Nat) (out : Bytes) (h : out.length % 4 = 2) :
    b64Tail (v, -2, out) = out ++ [alphabet.getD (v * 256 % 2 ^ 32 / 2 ^ 6 % 64) 0, 61] := by
  have h1 : ¬ (out.length + 1) % 4 = 0 := by omega
  have h2 : (out.length + 2) % 4 = 0 ↔ out.length % 4 = 2 := by omega
  have h3 : (out.length + 3) % 4 = 0 ↔ out.length % 4 = 1 := by omega
  simp [b64Tail, padLoop, Nat.shiftLeft_eq, shr_and, h, h1, h2, h3]

/-- The loop and the tail of `base64_encode`, started between two groups. -/
theorem b64_fold_eq : ∀ (l : Bytes) (v : Nat) (out : Bytes), isBytes l → out.length % 4 = 0 →
    b64Tail (l.foldl b64Step (v, -6, out)) = out ++ rfc4648_encode l := by
  intro l
  induction l using rfc4648_encode.induct with
  | case1 =>
    intro v out _ h
    simp [rfc4648_encode, b64Tail_m6 v out h]
  | case2 a =>
    intro v out hl h
    have ha : a < 256 := hl a (by simp)
    simp only [List.foldl_cons, List.foldl_nil, b64Step_m6, rfc4648_encode]
    rw [b64Tail_m4 _ _ (by simp only [List.length_append, List.length_singleton]; omega)]
    rw [alphabet_getD _ (Nat.mod_lt _ (by norm_num)), alphabet_getD _ (Nat.mod_lt _ (by norm_num))]
    have e1 : (v * 256 + a) % 2 ^ 32 / 2 ^ 2 % 64 = a / 4 := by omega
    have e2 : (v * 256 + a) % 2 ^ 32 * 256 % 2 ^ 32 / 2 ^ 4 % 64 = a % 4 * 16 := by omega
    rw [e1, e2]
    simp
  | case3 a b =>
    intro v out hl h
    have ha : a < 256 := hl a (by simp)
    have hb : b < 256 := hl b (by simp)
    simp only [List.foldl_cons, List.foldl_nil, b64Step_m6, b64Step_m4, rfc4648_encode]
    rw [b64Tail_m2 _ _ (by simp only [List.length_append, List.length_singleton]; omega)]
    rw [alphabet_getD _ (Nat.mod_lt _ (by norm_num)), alphabet_getD _ (Nat.mod_lt _ (by norm_num)),
      alphabet_getD _ (Nat.mod_lt _ (by norm_num))]
    have e1 : (v * 256 + a) % 2 ^ 32 / 2 ^ 2 % 64 = a / 4 := by omega
    have e2 : ((v * 256 + a) % 2 ^ 32 * 256 + b) % 2 ^ 32 / 2 ^ 4 % 64 = a % 4 * 16 + b / 16 := by
      omega
    have e3 : ((v * 256 + a) % 2 ^ 32 * 256 + b) % 2 ^ 32 * 256 % 2 ^ 32 / 2 ^ 6 % 64
        = b % 16 * 4 := by omega
    rw [e1, e2, e3]
    simp
  | case4 a b c rest ih =>
    intro v out hl h
    have ha : a < 256 := hl a (by simp)
    have hb : b < 256 := hl b (by simp)
    have hc : c < 256 := hl c (by simp)
    have hr : isBytes rest := fun x hx => hl x (by simp [hx])
    simp only [List.foldl_cons, b64Step_m6, b64Step_m4, b64Step_m2, rfc4648_encode]
    rw [ih _ _ hr (by simp only [List.length_append, List.length_singleton, List.length_cons, List.length_nil]; omega)]
    rw [alphabet_getD _ (Nat.mod_lt _ (by norm_num)), alphabet_getD _ (Nat.mod_lt _ (by norm_num)),
      alphabet_getD _ (Nat.mod_lt _ (by norm_num)), alphabet_getD _ (Nat.mod_lt _ (by norm_num))]
    have e1 : (v * 256 + a) % 2 ^ 32 / 2 ^ 2 % 64 = a / 4 := by omega
    have e2 : ((v * 256 + a) % 2 ^ 32 * 256 + b) % 2 ^ 32 / 2 ^ 4 % 64 = a % 4 * 16 + b / 16 := by
      omega
    have e3 : (((v * 256 + a) % 2 ^ 32 * 256 + b) % 2 ^ 32 * 256 + c) % 2 ^ 32 / 2 ^ 6 % 64
        = b % 16 * 4 + c / 64 := by omega
    have e4 : (((v * 256 + a) % 2 ^ 32 * 256 + b) % 2 ^ 32 * 256 + c) % 2 ^ 32 % 64
        = c % 64 := by omega
    rw [e1, e2, e3, e4]
    simp

theorem base64_encode_eq (b : Bytes) (hb : isBytes b) :
    base64_encode b b.length = rfc4648_encode b := by
  unfold base64_encode
  rw [List.take_length, b64_fold_eq b 0 [] hb (by simp)]
  simp

theorem rfc4648_encode_length : ∀ (l : Bytes),
    (rfc4648_encode l).length = 4 * ((l.length + 2) / 3) := by
  intro l
  induction l using rfc4648_encode.induct with
  | case1 => simp [rfc4648_encode]
  | case2 a => simp [rfc4648_encode]
  | case3 a b => simp [rfc4648_encode]
  | case4 a b c rest ih =>
    simp only [rfc4648_encode, List.length_cons, ih]
    omega

theorem rfc4648_encode_shape : ∀ (l : Bytes), isBytes l →
    ∃ body pad, rfc4648_encode l = body ++ List.replicate pad 61 ∧ pad ≤ 2 ∧
      ∀ c ∈ body, ∃ v < 64, c = rfc4648_char v := by
  intro l
  induction l using rfc4648_encode.induct with
  | case1 => intro _; exact ⟨[], 0, by simp [rfc4648_encode]⟩
  | case2 a =>
    intro hl
    have ha : a < 256 := hl a (by simp)
    refine ⟨[rfc4648_char (a / 4), rfc4648_char (a % 4 * 16)], 2, by simp [rfc4648_encode],
      by omega, ?_⟩
    intro c hc
    simp only [List.mem_cons, List.mem_singleton, List.not_mem_nil, or_false] at hc
    rcases hc with rfl | rfl
    · exact ⟨_, by omega, rfl⟩
    · exact ⟨_, by omega, rfl⟩
  | case3 a b =>
    intro hl
    have ha : a < 256 := hl a (by simp)
    have hb : b < 256 := hl b (by simp)
    refine ⟨[rfc4648_char (a / 4), rfc4648_char (a % 4 * 16 + b / 16),
      rfc4648_char (b % 16 * 4)], 1, by simp [rfc4648_encode], by omega, ?_⟩
    intro c hc
    simp only [List.mem_cons, List.mem_singleton, List.not_mem_nil, or_false] at hc
    rcases hc with rfl | rfl | rfl
    · exact ⟨_, by omega, rfl⟩
    · exact ⟨_, by omega, rfl⟩
    · exact ⟨_, by omega, rfl⟩
  | case4 a b c rest ih =>
    intro hl
    have ha : a < 256 := hl a (by simp)
    have hb : b < 256 := hl b (by simp)
    have hc : c < 256 := hl c (by simp)
    have hr : isBytes rest := fun x hx => hl x (by simp [hx])
    obtain ⟨body, pad, e, hp, hbody⟩ := ih hr
    refine ⟨rfc4648_char (a / 4) :: rfc4648_char (a % 4 * 16 + b / 16)
      :: rfc4648_char (b % 16 * 4 + c / 64) :: rfc4648_char (c % 64) :: body, pad,
      by simp [rfc4648_encode, e], hp, ?_⟩
    intro x hx
    simp only [List.mem_cons] at hx
    rcases hx with rfl | rfl | rfl | rfl | hx
    · exact ⟨_, by omega, rfl⟩
    · exact ⟨_, by omega, rfl⟩
    · exact ⟨_, by omega, rfl⟩
    · exact ⟨_, by omega, rfl⟩
    · exact hbody x hx

theorem rfc4648_decode_encode : ∀ (l : Bytes), isBytes l →
    rfc4648_decode (rfc4648_encode l) = some l := by
  intro l
  induction l using rfc4648_encode.induct with
  | case1 => intro _; simp [rfc4648_encode, rfc4648_decode]
  | case2 a =>
    intro hl
    have ha : a < 256 := hl a (by simp)
    simp only [rfc4648_encode, rfc4648_decode, rfc4648_value_char (a / 4) (by omega),
      rfc4648_value_char (a % 4 * 16) (by omega)]
    simp
    omega
  | case3 a b =>
    intro hl
    have ha : a < 256 := hl a (by simp)
    have hb : b < 256 := hl b (by simp)
    simp only [rfc4648_encode, rfc4648_decode, rfc4648_value_char (a / 4) (by omega),
      rfc4648_value_char (a % 4 * 16 + b / 16) (by omega),
      rfc4648_value_char (b % 16 * 4) (by omega)]
    simp [rfc4648_char_ne_pad (b % 16 * 4) (by omega)]
    omega
  | case4 a b c rest ih =>
    intro hl
    have ha : a < 256 := hl a (by simp)
    have hb : b < 256 := hl b (by simp)
    have hc : c < 256 := hl c (by simp)
    have hr : isBytes rest := fun x hx => hl x (by simp [hx])
    simp only [rfc4648_encode, rfc4648_decode, rfc4648_value_char (a / 4) (by omega),
      rfc4648_value_char (a % 4 * 16 + b / 16) (by omega),
      rfc4648_value_char (b % 16 * 4 + c / 64) (by omega),
      rfc4648_value_char (c % 64) (by omega), ih hr]
    simp [rfc4648_char_ne_pad (c % 64) (by omega)]
    omega

/-- C7. For every byte string `b`, `base64_encode(b, len(b))` is the standard
base64 encoding of `b` with `=` padding: its length is `4 * ceil(len(b)/3)`,
it is made of characters of the standard alphabet followed by at most two `=`,
and standard decoding gives back `b`. The accumulator `val` is reduced modulo
`2^32` at every step of the model. -/
theorem base64_encode_standard (b : Bytes) (hb : isBytes b) :
    base64_encode b b.length = rfc4648_encode b ∧
      (base64_encode b b.length).length = 4 * ((b.length + 2) / 3) ∧
      (∃ body pad, base64_encode b b.length = body ++ List.replicate pad 61 ∧ pad ≤ 2 ∧
        ∀ c ∈ body, ∃ v < 64, c = rfc4648_char v) ∧
      rfc4648_decode (base64_encode b b.length) = some b := by
  rw [base64_encode_eq b hb]
  exact ⟨rfl, rfc4648_encode_length b, rfc4648_encode_shape b hb, rfc4648_decode_encode b hb⟩

/-- C7, witness: the five bytes `fooba`, longer than the accumulator. -/
theorem base64_encode_standard_witness :
    base64_encode (str "fooba") (str "fooba").length = rfc4648_encode (str "fooba") ∧
      (base64_encode (str "fooba") (str "fooba").length).length
        = 4 * (((str "fooba").length + 2) / 3) ∧
      (∃ body pad, base64_encode (str "fooba") (str "fooba").length
          = body ++ List.replicate pad 61 ∧ pad ≤ 2 ∧
        ∀ c ∈ body, ∃ v < 64, c = rfc4648_char v) ∧
      rfc4648_decode (base64_encode (str "fooba") (str "fooba").length) = some (str "fooba") :=
  base64_encode_standard (str "fooba") (by decide)

/-! ## Handshake -/

set_option maxRecDepth 100000 in
/-- The model of `SHA1` on the test vectors of FIPS 180: the empty message,
`abc`, and the 56-byte message that needs a second block. -/
theorem SHA1_test_vectors :
    SHA1 [] = [0xda, 0x39, 0xa3, 0xee, 0x5e, 0x6b, 0x4b, 0x0d, 0x32, 0x55, 0xbf, 0xef, 0x95,
      0x60, 0x18, 0x90, 0xaf, 0xd8, 0x07, 0x09] ∧
    SHA1 (str "abc") = [0xa9, 0x99, 0x3e, 0x36, 0x47, 0x06, 0x81, 0x6a, 0xba, 0x3e, 0x25, 0x71,
      0x78, 0x50, 0xc2, 0x6c, 0x9c, 0xd0, 0xd8, 0x9d] ∧
    SHA1 (str "abcdbcdecdefdefgefghfghighijhijkijkljklmklmnlmnomnopnopq") = [0x84, 0x98, 0x3e,
      0x44, 0x1c, 0x3b, 0xd2, 0x6e, 0xba, 0xae, 0x4a, 0xa1, 0xf9, 0x51, 0x29, 0xe5, 0xe5, 0x46,
      0x70, 0xf1] := by
  decide

set_option maxRecDepth 100000 in
theorem sha1_rfc6455_vector :
    base64_encode (SHA1 (str "dGhlIHNhbXBsZSBub25jZQ==" ++ guid)) 20
      = str "s3pPLMBiTxaQ9kYGzzhZRbK+xOo=" := by
  decide

theorem HandshakeLine_first (hook : ServerSocket → Result Unit × ServerSocket) (line : Bytes)
    (inp out : Bytes) (g2 g3 g4 : Bool) (u w : Bytes) :
    HandshakeLine hook line ⟨inp, out, false, g2, g3, g4, u, w⟩ =
      if line.take 4 ≠ str "GET " then
        (.SilentException, ⟨inp, out ++ notImplemented, true, g2, g3, g4, u, w⟩)
      else
        (.ret (), ⟨inp, out, true, g2, g3, g4,
          substr line 4 ((find line 32 4 + 2 ^ 64 - 4) % 2 ^ 64), w⟩) := by
  simp [HandshakeLine, ServerSocket.Send]

theorem HandshakeLine_scan (hook : ServerSocket → Result Unit × ServerSocket) (line : Bytes)
    (hne : line ≠ []) (inp out : Bytes) (g3 g4 : Bool) (u w : Bytes) :
    HandshakeLine hook line ⟨inp, out, true, false, g3, g4, u, w⟩ =
      if line.take upg.length = upg then (.ret (), ⟨inp, out, true, false, true, g4, u, w⟩)
      else if line.take key.length = key then
        (.ret (), ⟨inp, out, true, false, g3, g4, u, line.drop key.length⟩)
      else (.ret (), ⟨inp, out, true, false, g3, g4, u, w⟩) := by
  simp [HandshakeLine, hne]

theorem HandshakeLine_end_upgrade (ds sl : Bytes) (inp out : Bytes) (g4 : Bool) (u w : Bytes) :
    HandshakeLine (WebServer.OnConnection ds sl) [] ⟨inp, out, true, false, true, g4, u, w⟩ =
      (.ret (), ⟨inp, out ++ switchingProtocols (base64_encode (SHA1 (w ++ guid)) 20),
        true, true, true, true, u, w ++ guid⟩) := by
  simp [HandshakeLine, WebServer.OnConnection, ServerSocket.Send]

theorem HandshakeLine_end_plain (ds sl : Bytes) (inp out : Bytes) (g4 : Bool) (u w : Bytes) :
    HandshakeLine (WebServer.OnConnection ds sl) [] ⟨inp, out, true, false, false, g4, u, w⟩ =
      (.SilentException, ⟨inp, out ++ html_stats ds sl, true, true, false, g4, u, w⟩) := by
  simp [HandshakeLine, WebServer.OnConnection, ServerSocket.Send]

theorem key_take_upg (k : Bytes) : (key ++ k).take upg.length ≠ upg := by
  have : (key ++ k).take upg.length = key.take upg.length := by
    rw [List.take_append_of_le_length (by decide)]
  rw [this]
  decide

/-- C6. The lines `GET /chat HTTP/1.1`, `Upgrade: websocket`,
`Sec-WebSocket-Key: dGhlIHNhbXBsZSBub25jZQ==` and the empty line make
`HandshakeLine` send the response whose accept value is
`s3pPLMBiTxaQ9kYGzzhZRbK+xOo=`; with any key text `k` after the header name
the accept value is `base64_encode(SHA1(k ++ GUID))`. -/
theorem handshake_accept_value (ds sl inp : Bytes) :
    (feedLines (WebServer.OnConnection ds sl)
        [str "GET /chat HTTP/1.1", str "Upgrade: websocket",
          str "Sec-WebSocket-Key: dGhlIHNhbXBsZSBub25jZQ==", []] (fresh inp)).2.out
      = str "HTTP/1.1 101 Switching Protocols\r\nUpgrade: websocket\r\nConnection: Upgrade\r\nSec-WebSocket-Accept: s3pPLMBiTxaQ9kYGzzhZRbK+xOo=\r\n\r\n"
    ∧ ∀ k : Bytes,
      (feedLines (WebServer.OnConnection ds sl)
        [str "GET /chat HTTP/1.1", str "Upgrade: websocket",
          str "Sec-WebSocket-Key: " ++ k, []] (fresh inp)).2.out
      = str "HTTP/1.1 101 Switching Protocols\r\nUpgrade: websocket\r\nConnection: Upgrade\r\nSec-WebSocket-Accept: "
        ++ base64_encode (SHA1 (k ++ str "258EAFA5-E914-47DA-95CA-C5AB0DC85B11")) 20
        ++ str "\r\n\r\n" := by
  have gen : ∀ k : Bytes,
      (feedLines (WebServer.OnConnection ds sl)
        [str "GET /chat HTTP/1.1", str "Upgrade: websocket",
          str "Sec-WebSocket-Key: " ++ k, []] (fresh inp)).2.out
      = str "HTTP/1.1 101 Switching Protocols\r\nUpgrade: websocket\r\nConnection: Upgrade\r\nSec-WebSocket-Accept: "
        ++ base64_encode (SHA1 (k ++ str "258EAFA5-E914-47DA-95CA-C5AB0DC85B11")) 20
        ++ str "\r\n\r\n" := by
    intro k
    have e1 : ¬ (str "GET /chat HTTP/1.1").take 4 ≠ str "GET " := by decide
    have e2 : (str "Upgrade: websocket").take upg.length = upg := by decide
    have e3 : str "Sec-WebSocket-Key: " = key := rfl
    have n2 : str "Upgrade: websocket" ≠ [] := by decide
    have n3 : key ++ k ≠ [] := by
      intro h; have := congrArg List.length h; simp [key, str] at this
    simp only [feedLines, fresh, HandshakeLine_first, if_neg e1,
      HandshakeLine_scan _ _ n2, if_pos e2, e3, HandshakeLine_scan _ _ n3,
      if_neg (key_take_upg k), List.take_left', List.drop_left', if_true,
      HandshakeLine_end_upgrade]
    rfl
  refine ⟨?_, gen⟩
  have h := gen (str "dGhlIHNhbXBsZSBub25jZQ==")
  have e : str "Sec-WebSocket-Key: " ++ str "dGhlIHNhbXBsZSBub25jZQ==" =
      str "Sec-WebSocket-Key: dGhlIHNhbXBsZSBub25jZQ==" := by decide
  rw [e] at h
  rw [h]
  have v := sha1_rfc6455_vector
  unfold guid at v
  rw [v]
  decide

/-- C8. A first line that does not begin with `GET ` (the empty line and
shorter lines included) makes `HandshakeLine` send exactly the
`501 Not Implemented` response and throw `SilentException`; the URL and every
other member but `_got_first_line` stay as they were. -/
theorem handshake_not_get (hook : ServerSocket → Result Unit × ServerSocket) (line : Bytes)
    (s : ServerSocket) (h0 : s._got_first_line = false) (hline : line.take 4 ≠ str "GET ") :
    HandshakeLine hook line s = (.SilentException, { s with
      _got_first_line := true,
      out := s.out ++ str "HTTP/1.1 501 Not Implemented\r\nServer: CogServer\r\n\r\n" }) := by
  obtain ⟨inp, out, g1, g2, g3, g4, u, w⟩ := s
  simp only at h0
  subst h0
  rw [HandshakeLine_first, if_pos hline]
  rfl

/-- C8, witness: the empty first line. -/
theorem handshake_not_get_witness :
    HandshakeLine (WebServer.OnConnection [] []) [] (fresh []) = (.SilentException, { fresh [] with
      _got_first_line := true,
      out := [] ++ str "HTTP/1.1 501 Not Implemented\r\nServer: CogServer\r\n\r\n" }) :=
  handshake_not_get (WebServer.OnConnection [] []) [] (fresh []) rfl (by decide)

theorem feedLines_append (hook : ServerSocket → Result Unit × ServerSocket) :
    ∀ (a b : List Bytes) (s : ServerSocket),
      feedLines hook (a ++ b) s =
        match feedLines hook a s with
        | (.ret (), s2) => feedLines hook b s2
        | r => r := by
  intro a
  induction a with
  | nil => intro b s; simp [feedLines]
  | cons l a ih =>
    intro b s
    simp only [List.cons_append, feedLines]
    rcases h : HandshakeLine hook l s with ⟨r, s2⟩
    cases r with
    | ret x => cases x; exact ih b s2
    | SilentException => rfl
    | system_error => rfl

/-- Header lines before the empty line: nothing is sent, the flags other than
`_got_websock_header` stay, and that flag records an `Upgrade: websocket` line. -/
theorem feedLines_scan (hook : ServerSocket → Result Unit × ServerSocket) :
    ∀ (hdrs : List Bytes), (∀ l ∈ hdrs, l ≠ []) →
      ∀ (inp out : Bytes) (g3 g4 : Bool) (u w : Bytes),
        ∃ w2, feedLines hook hdrs ⟨inp, out, true, false, g3, g4, u, w⟩ =
          (.ret (), ⟨inp, out, true, false,
            g3 || hdrs.any (fun l => decide (l.take upg.length = upg)), g4, u, w2⟩) := by
  intro hdrs
  induction hdrs with
  | nil => intro _ inp out g3 g4 u w; exact ⟨w, by simp [feedLines]⟩
  | cons l hdrs ih =>
    intro hne inp out g3 g4 u w
    have hl : l ≠ [] := hne l (List.mem_cons_self _ _)
    have hne2 : ∀ x ∈ hdrs, x ≠ [] := fun x hx => hne x (List.mem_cons_of_mem _ hx)
    simp only [feedLines, HandshakeLine_scan hook l hl]
    by_cases h1 : l.take upg.length = upg
    · obtain ⟨w2, e⟩ := ih hne2 inp out true g4 u w
      refine ⟨w2, ?_⟩
      simp only [if_pos h1, e]
      simp [h1]
    · by_cases h2 : l.take key.length = key
      · obtain ⟨w2, e⟩ := ih hne2 inp out g3 g4 u (l.drop key.length)
        refine ⟨w2, ?_⟩
        simp only [if_neg h1, if_pos h2, e]
        simp [h1]
      · obtain ⟨w2, e⟩ := ih hne2 inp out g3 g4 u w
        refine ⟨w2, ?_⟩
        simp only [if_neg h1, if_neg h2, e]
        simp [h1]

/-- C9. After a first line beginning with `GET ` and header lines among which
one begins with `Upgrade: websocket`, the empty line makes `HandshakeLine`
send the one `101 Switching Protocols` response, with the accept value of the
captured key, and set `_do_frame_io`; after each earlier line nothing was sent
and `_do_frame_io` is still false. The hook is `WebServer::OnConnection`. -/
theorem handshake_upgrade (ds sl first : Bytes) (hdrs : List Bytes) (s : ServerSocket)
    (h0 : s._got_first_line = false) (h1 : s._got_http_header = false)
    (h2 : s._do_frame_io = false) (hget : first.take 4 = str "GET ")
    (hne : ∀ l ∈ hdrs, l ≠ []) (hupg : ∃ l ∈ hdrs, l.take upg.length = upg) :
    (∀ n, (feedLines (WebServer.OnConnection ds sl) ((first :: hdrs).take n) s).1 = .ret () ∧
      (feedLines (WebServer.OnConnection ds sl) ((first :: hdrs).take n) s).2.out = s.out ∧
      (feedLines (WebServer.OnConnection ds sl) ((first :: hdrs).take n) s).2._do_frame_io
        = false) ∧
    feedLines (WebServer.OnConnection ds sl) (first :: hdrs ++ [[]]) s =
      (.ret (), { (feedLines (WebServer.OnConnection ds sl) (first :: hdrs) s).2 with
        _got_http_header := true
        _do_frame_io := true
        _webkey := (feedLines (WebServer.OnConnection ds sl) (first :: hdrs) s).2._webkey ++ guid
        out := s.out ++
          str "HTTP/1.1 101 Switching Protocols\r\nUpgrade: websocket\r\nConnection: Upgrade\r\nSec-WebSocket-Accept: "
          ++ base64_encode (SHA1
            ((feedLines (WebServer.OnConnection ds sl) (first :: hdrs) s).2._webkey ++ guid)) 20
          ++ str "\r\n\r\n" }) := by
  obtain ⟨inp, out, g1, g2, g3, g4, u, w⟩ := s
  simp only at h0 h1 h2
  subst h0 h1 h2
  have hg : ¬ first.take 4 ≠ str "GET " := fun h => h hget
  constructor
  · intro n
    cases n with
    | zero => simp [feedLines]
    | succ n =>
      have hne2 : ∀ l ∈ hdrs.take n, l ≠ [] := fun l hl => hne l (List.mem_of_mem_take hl)
      obtain ⟨w2, e⟩ := feedLines_scan (WebServer.OnConnection ds sl) (hdrs.take n) hne2 inp out
        g3 false (substr first 4 ((find first 32 4 + 2 ^ 64 - 4) % 2 ^ 64)) w
      simp only [List.take_succ_cons, feedLines, HandshakeLine_first, if_neg hg, e]
      simp
  · obtain ⟨w2, e⟩ := feedLines_scan (WebServer.OnConnection ds sl) hdrs hne inp out
      g3 false (substr first 4 ((find first 32 4 + 2 ^ 64 - 4) % 2 ^ 64)) w
    have hany : hdrs.any (fun l => decide (l.take upg.length = upg)) = true := by
      obtain ⟨l, hl, hl2⟩ := hupg
      exact List.any_eq_true.mpr ⟨l, hl, by simp [hl2]⟩
    rw [hany, Bool.or_true] at e
    have e2 : feedLines (WebServer.OnConnection ds sl) (first :: hdrs)
        ⟨inp, out, false, false, g3, false, u, w⟩ = (.ret (), ⟨inp, out, true, false, true,
          false, substr first 4 ((find first 32 4 + 2 ^ 64 - 4) % 2 ^ 64), w2⟩) := by
      simp only [feedLines, HandshakeLine_first, if_neg hg, e]
    rw [feedLines_append, e2]
    simp only [feedLines, HandshakeLine_end_upgrade, switchingProtocols, List.append_assoc]

/-- C9, witness: `GET /chat HTTP/1.1`, `Host: x`, `Upgrade: websocket`,
`Sec-WebSocket-Key: abc`, the empty line. -/
theorem handshake_upgrade_witness :
    (∀ n, (feedLines (WebServer.OnConnection [] []) ((str "GET /chat HTTP/1.1" ::
          [str "Host: x", str "Upgrade: websocket", str "Sec-WebSocket-Key: abc"]).take n)
          (fresh [])).1 = .ret () ∧
      (feedLines (WebServer.OnConnection [] []) ((str "GET /chat HTTP/1.1" ::
          [str "Host: x", str "Upgrade: websocket", str "Sec-WebSocket-Key: abc"]).take n)
          (fresh [])).2.out = (fresh []).out ∧
      (feedLines (WebServer.OnConnection [] []) ((str "GET /chat HTTP/1.1" ::
          [str "Host: x", str "Upgrade: websocket", str "Sec-WebSocket-Key: abc"]).take n)
          (fresh [])).2._do_frame_io = false) ∧
    feedLines (WebServer.OnConnection [] []) (str "GET /chat HTTP/1.1" ::
        [str "Host: x", str "Upgrade: websocket", str "Sec-WebSocket-Key: abc"] ++ [[]])
        (fresh []) =
      (.ret (), { (feedLines (WebServer.OnConnection [] []) (str "GET /chat HTTP/1.1" ::
          [str "Host: x", str "Upgrade: websocket", str "Sec-WebSocket-Key: abc"])
          (fresh [])).2 with
        _got_http_header := true
        _do_frame_io := true
        _webkey := (feedLines (WebServer.OnConnection [] []) (str "GET /chat HTTP/1.1" ::
          [str "Host: x", str "Upgrade: websocket", str "Sec-WebSocket-Key: abc"])
          (fresh [])).2._webkey ++ guid
        out := (fresh []).out ++
          str "HTTP/1.1 101 Switching Protocols\r\nUpgrade: websocket\r\nConnection: Upgrade\r\nSec-WebSocket-Accept: "
          ++ base64_encode (SHA1
            ((feedLines (WebServer.OnConnection [] []) (str "GET /chat HTTP/1.1" ::
              [str "Host: x", str "Upgrade: websocket", str "Sec-WebSocket-Key: abc"])
              (fresh [])).2._webkey ++ guid)) 20
          ++ str "\r\n\r\n" }) :=
  handshake_upgrade [] [] (str "GET /chat HTTP/1.1")
    [str "Host: x", str "Upgrade: websocket", str "Sec-WebSocket-Key: abc"] (fresh [])
    rfl rfl rfl (by decide) (by decide) (by decide)

/-- From the header scan without an `Upgrade: websocket` line: whatever lines
follow, frame mode stays off and the only thing ever sent is the stats page. -/
theorem feedLines_plain (ds sl : Bytes) :
    ∀ (ls : List Bytes), (∀ l ∈ ls, l.take upg.length ≠ upg) →
      ∀ (inp out : Bytes) (u w : Bytes),
        (feedLines (WebServer.OnConnection ds sl) ls
            ⟨inp, out, true, false, false, false, u, w⟩).2._do_frame_io = false ∧
        ((feedLines (WebServer.OnConnection ds sl) ls
            ⟨inp, out, true, false, false, false, u, w⟩).2.out = out ∨
          (feedLines (WebServer.OnConnection ds sl) ls
            ⟨inp, out, true, false, false, false, u, w⟩).2.out = out ++ html_stats ds sl) := by
  intro ls
  induction ls with
  | nil => intro _ inp out u w; simp [feedLines]
  | cons l ls ih =>
    intro hno inp out u w
    have h1 : l.take upg.length ≠ upg := hno l (List.mem_cons_self _ _)
    have hno2 : ∀ x ∈ ls, x.take upg.length ≠ upg := fun x hx => hno x (List.mem_cons_of_mem _ hx)
    by_cases hl : l = []
    · subst hl
      simp only [feedLines, HandshakeLine_end_plain]
      simp
    · simp only [feedLines, HandshakeLine_scan _ l hl, if_neg h1]
      by_cases h2 : l.take key.length = key
      · simp only [if_pos h2]
        exact ih hno2 inp out u _
      · simp only [if_neg h2]
        exact ih hno2 inp out u w

set_option maxRecDepth 10000 in
/-- C10. Without a header line beginning with `Upgrade: websocket`, whatever
the lines: `_do_frame_io` stays false and the wire holds nothing new, the
`501` response, or the `200 OK` stats page, never a `101` response; and the
empty line after `GET` and the headers sends the stats page of `WebServer`
and throws `SilentException`. -/
theorem handshake_no_upgrade (ds sl : Bytes) (s : ServerSocket) (ls : List Bytes)
    (first : Bytes) (hdrs : List Bytes)
    (h0 : s._got_first_line = false) (h1 : s._got_http_header = false)
    (h2 : s._got_websock_header = false) (h3 : s._do_frame_io = false)
    (hno : ∀ l ∈ ls.tail, l.take upg.length ≠ upg)
    (hget : first.take 4 = str "GET ")
    (hh : ∀ l ∈ hdrs, l ≠ [] ∧ l.take upg.length ≠ upg) :
    ((feedLines (WebServer.OnConnection ds sl) ls s).2._do_frame_io = false ∧
      ((feedLines (WebServer.OnConnection ds sl) ls s).2.out = s.out ∨
        (feedLines (WebServer.OnConnection ds sl) ls s).2.out
          = s.out ++ str "HTTP/1.1 501 Not Implemented\r\nServer: CogServer\r\n\r\n" ∨
        (feedLines (WebServer.OnConnection ds sl) ls s).2.out = s.out ++ html_stats ds sl)) ∧
    feedLines (WebServer.OnConnection ds sl) (first :: hdrs ++ [[]]) s =
      (.SilentException, { (feedLines (WebServer.OnConnection ds sl) (first :: hdrs) s).2 with
        _got_http_header := true
        out := s.out ++ html_stats ds sl }) ∧
    (html_stats ds sl).take 17 = str "HTTP/1.1 200 OK\r\n" := by
  obtain ⟨inp, out, g1, g2, g3, g4, u, w⟩ := s
  simp only at h0 h1 h2 h3
  subst h0 h1 h2 h3
  refine ⟨?_, ?_, ?_⟩
  · cases ls with
    | nil => simp [feedLines]
    | cons first ls =>
      simp only [List.tail_cons] at hno
      simp only [feedLines, HandshakeLine_first]
      by_cases hg : first.take 4 ≠ str "GET "
      · rw [if_pos hg]
        exact ⟨rfl, Or.inr (Or.inl rfl)⟩
      · rw [if_neg hg]
        obtain ⟨a, b⟩ := feedLines_plain ds sl ls hno inp out
          (substr first 4 ((find first 32 4 + 2 ^ 64 - 4) % 2 ^ 64)) w
        refine ⟨a, ?_⟩
        rcases b with b | b
        · exact Or.inl b
        · exact Or.inr (Or.inr b)
  · have hg : ¬ first.take 4 ≠ str "GET " := fun h => h hget
    obtain ⟨w2, e⟩ := feedLines_scan (WebServer.OnConnection ds sl) hdrs (fun l hl => (hh l hl).1)
      inp out false false (substr first 4 ((find first 32 4 + 2 ^ 64 - 4) % 2 ^ 64)) w
    have hany : hdrs.any (fun l => decide (l.take upg.length = upg)) = false := by
      rw [List.any_eq_false]
      intro l hl
      simp [(hh l hl).2]
    rw [hany, Bool.or_false] at e
    have e2 : feedLines (WebServer.OnConnection ds sl) (first :: hdrs)
        ⟨inp, out, false, false, false, false, u, w⟩ = (.ret (), ⟨inp, out, true, false, false,
          false, substr first 4 ((find first 32 4 + 2 ^ 64 - 4) % 2 ^ 64), w2⟩) := by
      simp only [feedLines, HandshakeLine_first, if_neg hg, e]
    rw [feedLines_append, e2]
    simp only [feedLines, HandshakeLine_end_plain]
  · simp only [html_stats, List.append_assoc]
    rw [List.take_append_of_le_length (by decide)]
    decide

/-- C10, witness: `GET / HTTP/1.1`, `Host: x`, the empty line. -/
theorem handshake_no_upgrade_witness :
    ((feedLines (WebServer.OnConnection (str "stats") (str "legend"))
        [str "GET / HTTP/1.1", str "Host: x"] (fresh [])).2._do_frame_io = false ∧
      ((feedLines (WebServer.OnConnection (str "stats") (str "legend"))
          [str "GET / HTTP/1.1", str "Host: x"] (fresh [])).2.out = (fresh []).out ∨
        (feedLines (WebServer.OnConnection (str "stats") (str "legend"))
          [str "GET / HTTP/1.1", str "Host: x"] (fresh [])).2.out
          = (fresh []).out ++ str "HTTP/1.1 501 Not Implemented\r\nServer: CogServer\r\n\r\n" ∨
        (feedLines (WebServer.OnConnection (str "stats") (str "legend"))
          [str "GET / HTTP/1.1", str "Host: x"] (fresh [])).2.out
          = (fresh []).out ++ html_stats (str "stats") (str "legend"))) ∧
    feedLines (WebServer.OnConnection (str "stats") (str "legend"))
        (str "GET / HTTP/1.1" :: [str "Host: x"] ++ [[]]) (fresh []) =
      (.SilentException, { (feedLines (WebServer.OnConnection (str "stats") (str "legend"))
          (str "GET / HTTP/1.1" :: [str "Host: x"]) (fresh [])).2 with
        _got_http_header := true
        out := (fresh []).out ++ html_stats (str "stats") (str "legend") }) ∧
    (html_stats (str "stats") (str "legend")).take 17 = str "HTTP/1.1 200 OK\r\n" :=
  handshake_no_upgrade (str "stats") (str "legend") (fresh [])
    [str "GET / HTTP/1.1", str "Host: x"] (str "GET / HTTP/1.1") [str "Host: x"]
    rfl rfl rfl rfl (by decide) (by decide) (by decide)

/-! ## Later claims: framed state, pongs, masked pings, lengths, URL, command table -/

theorem read_some_out {s s2 : ServerSocket} {n : Nat} {b : Bytes}
    (h : s.read n = some (b, s2)) : s2.out = s.out := by
  unfold ServerSocket.read at h
  split at h
  · simp only [Option.some.injEq, Prod.mk.injEq] at h
    rw [← h.2]
  · simp at h

theorem textFrame_out (behind : Bytes) (fop : Nat) (s : ServerSocket) :
    (textFrame behind fop s).2.out = s.out := by
  unfold textFrame
  dsimp only
  split
  · rfl
  split
  · rfl
  cases h1 : s.read 1 with
  | none => rfl
  | some bs =>
    obtain ⟨b, s1⟩ := bs
    have o1 := read_some_out h1
    dsimp only
    split
    · exact o1
    cases h2 : s1.read 4 with
    | none => exact o1
    | some bs2 =>
      obtain ⟨mk, s2⟩ := bs2
      have o2 := read_some_out h2
      dsimp only
      cases h3 : s2.read (b.headD 0 &&& 0x7f) with
      | none => exact o2.trans o1
      | some bs3 =>
        obtain ⟨pl, s3⟩ := bs3
        exact (read_some_out h3).trans (o2.trans o1)

theorem pongFrames_eq_flatten (ps : List (Nat × Bytes)) :
    pongFrames ps = (ps.map fun fp => [0x8a, fp.2.length] ++ fp.2).flatten := by
  induction ps with
  | nil => rfl
  | cons fp ps ih => simp [pongFrames, ih]

/-- C12 (as amended). After valid pings and a header byte that is no ping,
the wire holds the pongs `[0x8a, len] ++ payload` in order, and the first byte
of every pong is `0x8a`: its low four bits are `0xA`, the pong opcode, not
`0x8`. -/
theorem pong_header_byte (behind : Bytes) (ps : List (Nat × Bytes)) (fop : Nat) (rest : Bytes)
    (s : ServerSocket) (hv : validPings ps) (hfop : fop &&& 0xf ≠ 9) :
    (∃ r s2, get_websocket_line behind { s with inp := pingFrames ps ++ fop :: rest }
        = some (r, s2) ∧
      s2.out = s.out ++ (ps.map fun fp => [0x8a, fp.2.length] ++ fp.2).flatten) ∧
    ∀ frame ∈ ps.map (fun fp => [0x8a, fp.2.length] ++ fp.2),
      frame.headD 0 = 0x8a ∧ frame.headD 0 &&& 0xf = 0xA ∧ frame.headD 0 &&& 0xf ≠ 0x8 := by
  obtain ⟨inp, out, g1, g2, g3, g4, u, w⟩ := s
  constructor
  · refine ⟨(textFrame behind fop ⟨rest, out ++ pongFrames ps, g1, g2, g3, g4, u, w⟩).1,
      (textFrame behind fop ⟨rest, out ++ pongFrames ps, g1, g2, g3, g4, u, w⟩).2, ?_, ?_⟩
    · exact gwl_after_pings behind ps hv fop hfop rest out g1 g2 g3 g4 u w
    · rw [textFrame_out, pongFrames_eq_flatten]
  · intro frame hf
    obtain ⟨fp, -, rfl⟩ := List.mem_map.mp hf
    simp only [List.cons_append, List.headD_cons]
    decide

/-- C12, witness: one ping carrying the byte 5, then a close frame. -/
theorem pong_header_byte_witness :
    (∃ r s2, get_websocket_line [] (fresh (pingFrames [(0x89, [5])] ++ 0x88 :: []))
        = some (r, s2) ∧
      s2.out = (fresh []).out ++ ([(0x89, [5])].map fun fp => [0x8a, fp.2.length] ++ fp.2).flatten) ∧
    ∀ frame ∈ [((0x89 : Nat), ([5] : Bytes))].map (fun fp => [0x8a, fp.2.length] ++ fp.2),
      frame.headD 0 = 0x8a ∧ frame.headD 0 &&& 0xf = 0xA ∧ frame.headD 0 &&& 0xf ≠ 0x8 :=
  pong_header_byte [] [(0x89, [5])] 0x88 [] (fresh []) (by decide) (by decide)

/-- C12, counterexample to the claim as stated: the pong written for the
ping `89 01 05` is `8a 01 05`, and `0x8a & 0xf` is `0xA`, not `0x8`. -/
theorem pong_opcode_not_close :
    (get_websocket_line [] (fresh [0x89, 1, 5, 0x88])).map (fun r => r.2.out) = some [0x8a, 1, 5] ∧
      (0x8a : Nat) &&& 0xf = 0xA ∧ (0x8a : Nat) &&& 0xf ≠ 0x8 := by
  decide

/-- C17. During the header scan a non-empty line that begins with neither
`Upgrade: websocket` nor `Sec-WebSocket-Key: ` (compared byte by byte) leaves
the connection as it is and sends nothing. -/
theorem handshake_other_header (hook : ServerSocket → Result Unit × ServerSocket)
    (line : Bytes) (s : ServerSocket) (h1 : s._got_first_line = true)
    (h2 : s._got_http_header = false) (hne : line ≠ [])
    (hu : line.take 18 ≠ str "Upgrade: websocket")
    (hk : line.take 19 ≠ str "Sec-WebSocket-Key: ") :
    HandshakeLine hook line s = (.ret (), s) := by
  obtain ⟨inp, out, g1, g2, g3, g4, u, w⟩ := s
  simp only at h1 h2
  subst h1 h2
  have hu2 : ¬ line.take upg.length = upg := hu
  have hk2 : ¬ line.take key.length = key := hk
  rw [HandshakeLine_scan hook line hne, if_neg hu2, if_neg hk2]

/-- C17, witness: `upgrade: websocket`, `sec-websocket-key: k` and `Host: x`. -/
theorem handshake_other_header_witness :
    HandshakeLine (WebServer.OnConnection [] []) (str "upgrade: websocket")
        ⟨[], [], true, false, false, false, str "/chat", []⟩
      = (.ret (), ⟨[], [], true, false, false, false, str "/chat", []⟩) ∧
    HandshakeLine (WebServer.OnConnection [] []) (str "sec-websocket-key: k")
        ⟨[], [], true, false, false, false, str "/chat", []⟩
      = (.ret (), ⟨[], [], true, false, false, false, str "/chat", []⟩) ∧
    HandshakeLine (WebServer.OnConnection [] []) (str "Host: x")
        ⟨[], [], true, false, false, false, str "/chat", []⟩
      = (.ret (), ⟨[], [], true, false, false, false, str "/chat", []⟩) :=
  ⟨handshake_other_header _ (str "upgrade: websocket") _ rfl rfl (by decide) (by decide)
      (by decide),
    handshake_other_header _ (str "sec-websocket-key: k") _ rfl rfl (by decide) (by decide)
      (by decide),
    handshake_other_header _ (str "Host: x") _ rfl rfl (by decide) (by decide) (by decide)⟩

/-- The ping loop over valid pings: each is answered and the loop goes on with
the header byte that follows, with as much fuel less as there were pings. -/
theorem pingLoop_skip :
    ∀ (ps : List (Nat × Bytes)), validPings ps →
      ∀ (fuel h : Nat) (t : Bytes) (h2 : Nat) (t2 out : Bytes) (g1 g2 g3 g4 : Bool)
        (u w : Bytes),
      h :: t = pingFrames ps ++ h2 :: t2 →
      pingLoop (fuel + ps.length) h ⟨t, out, g1, g2, g3, g4, u, w⟩
        = pingLoop fuel h2 ⟨t2, out ++ pongFrames ps, g1, g2, g3, g4, u, w⟩ := by
  intro ps
  induction ps with
  | nil =>
    intro _ fuel h t h2 t2 out g1 g2 g3 g4 u w e
    simp only [pingFrames, List.nil_append, List.cons.injEq] at e
    obtain ⟨rfl, rfl⟩ := e
    simp [pongFrames]
  | cons fp ps ih =>
    intro hv fuel h t h2 t2 out g1 g2 g3 g4 u w e
    have hfp := hv fp (List.mem_cons_self _ _)
    have hv2 : validPings ps := fun x hx => hv x (List.mem_cons_of_mem _ hx)
    simp only [pingFrames, List.cons_append, List.cons.injEq] at e
    obtain ⟨rfl, rfl⟩ := e
    obtain ⟨b1, b2, -, -⟩ := len_bits fp.2.length (by omega)
    obtain ⟨h3, t3, e3⟩ : ∃ h3 t3, h3 :: t3 = pingFrames ps ++ h2 :: t2 := by
      cases hps : pingFrames ps ++ h2 :: t2 with
      | nil => simp at hps
      | cons a l => exact ⟨a, l, rfl⟩
    have := ih hv2 fuel h3 t3 h2 t2 (out ++ 0x8a :: fp.2.length :: fp.2) g1 g2 g3 g4 u w e3
    have ef : fuel + (fp :: ps).length = (fuel + ps.length) + 1 := by simp; omega
    rw [ef]
    conv_lhs => unfold pingLoop
    rw [List.append_assoc, ← e3]
    by_cases hz : 0 < fp.2.length
    · simp [ServerSocket.read, ServerSocket.Send, hfp.1, b1, b2, hz, this, pongFrames]
    · have hnil : fp.2 = [] := List.length_eq_zero.mp (by omega)
      simp only [hnil, List.length_nil, List.append_assoc, List.cons_append,
        List.nil_append] at this
      simp [ServerSocket.read, ServerSocket.Send, hfp.1, hnil, this, pongFrames]

/-- C13. A ping (opcode 9) whose second byte has the bit `0x80` set, first or
after valid pings, ends the call with `SilentException`: no line, no pong
for it, nothing read after its second byte; the wire holds the pongs of the
earlier pings only. -/
theorem get_websocket_line_masked_ping (behind : Bytes) (ps : List (Nat × Bytes))
    (fop mpay : Nat) (rest : Bytes) (s : ServerSocket) (hv : validPings ps)
    (hfop : fop &&& 0xf = 9) (hmask : mpay &&& 0x80 ≠ 0) :
    get_websocket_line behind { s with inp := pingFrames ps ++ fop :: mpay :: rest }
      = some (.SilentException, { s with inp := rest, out := s.out ++ pongFrames ps }) := by
  obtain ⟨inp, out, g1, g2, g3, g4, u, w⟩ := s
  obtain ⟨h, t, e⟩ : ∃ h t, h :: t = pingFrames ps ++ fop :: mpay :: rest := by
    cases hps : pingFrames ps ++ fop :: mpay :: rest with
    | nil => simp at hps
    | cons a l => exact ⟨a, l, rfl⟩
  have hl : ps.length + 1 ≤ t.length + 1 := by
    have h1 := congrArg List.length e
    have h2 := pingFrames_length ps
    simp at h1
    omega
  obtain ⟨f, hf⟩ : ∃ f, t.length + 1 = (f + 1) + ps.length := ⟨t.length - ps.length, by omega⟩
  have hp := pingLoop_skip ps hv (f + 1) h t fop (mpay :: rest) out g1 g2 g3 g4 u w e
  unfold get_websocket_line
  simp only []
  rw [← e]
  simp only [ServerSocket.read, List.length_cons, Nat.le_add_left, if_true, List.take_succ_cons,
    List.take_zero, List.drop_succ_cons, List.drop_zero, List.headD_cons]
  rw [hf, hp]
  unfold pingLoop
  simp [ServerSocket.read, hfop, hmask]

/-- C13, witness: a masked ping `89 83` after one valid ping. -/
theorem get_websocket_line_masked_ping_witness :
    get_websocket_line [] (fresh (pingFrames [(0x89, [1, 2])] ++ 0x89 :: 0x83 :: [5, 6, 7]))
      = some (.SilentException,
          { fresh [5, 6, 7] with out := [] ++ pongFrames [(0x89, [1, 2])] }) :=
  get_websocket_line_masked_ping [] [(0x89, [1, 2])] 0x89 0x83 [5, 6, 7] (fresh [])
    (by decide) (by decide) (by decide)

theorem bulkLoop_length (mask paylen : Nat) : ∀ (fuel i : Nat) (mem : Bytes),
    (bulkLoop mask paylen fuel i mem).2.length = mem.length := by
  intro fuel
  induction fuel with
  | zero => intro i mem; rfl
  | succ f ih =>
    intro i mem
    unfold bulkLoop
    split
    · rw [ih, store32_length]
    · rfl

theorem tailLoop_length (mask i : Nat) (mem : Bytes) :
    (tailLoop mask i mem).length = mem.length := by
  unfold tailLoop
  generalize List.range (i % 4) = js
  induction js generalizing mem with
  | nil => rfl
  | cons j js ih => simp only [List.foldl_cons]; rw [ih]; simp

theorem unmaskCode_length (mask paylen : Nat) (data : Bytes) :
    (unmaskCode mask paylen data).length = data.length := by
  unfold unmaskCode
  simp only [tailLoop_length, bulkLoop_length]

/-- The text-frame part on any masked frame: what is read and what is returned. -/
theorem textFrame_accept (behind : Bytes) (fop mpay : Nat) (mk pl rest out : Bytes)
    (g1 g2 g3 g4 : Bool) (u w : Bytes) (hfop : fop &&& 0xf = 1) (hmask : mpay &&& 0x80 ≠ 0)
    (hk : mk.length = 4) (hp : pl.length = mpay &&& 0x7f) :
    textFrame behind fop ⟨mpay :: (mk ++ pl ++ rest), out, g1, g2, g3, g4, u, w⟩
      = (.ret (((unmaskCode (load32 mk 0) pl.length (pl ++ [0] ++ behind)).set pl.length 0).take
          (pl.length + 1)), ⟨rest, out, g1, g2, g3, g4, u, w⟩) := by
  unfold textFrame unmaskCode
  simp only [hfop, ServerSocket.read]
  simp [hmask, hk, ← hp]

/-- What `textFrame` does when it returns a line. -/
theorem textFrame_ret (behind : Bytes) (fop mpay : Nat) (tl out : Bytes)
    (g1 g2 g3 g4 : Bool) (u w : Bytes) (line : Bytes) (s2 : ServerSocket)
    (h : textFrame behind fop ⟨mpay :: tl, out, g1, g2, g3, g4, u, w⟩ = (.ret line, s2)) :
    mpay &&& 0x80 ≠ 0 ∧ 4 + (mpay &&& 0x7f) ≤ tl.length ∧
      s2 = ⟨tl.drop (4 + (mpay &&& 0x7f)), out, g1, g2, g3, g4, u, w⟩ := by
  unfold textFrame at h
  simp only [ServerSocket.read] at h
  split at h
  · simp at h
  split at h
  · simp at h
  simp only [List.length_cons, Nat.le_add_left, if_true, List.take_succ_cons, List.take_zero,
    List.drop_succ_cons, List.drop_zero, List.headD_cons] at h
  split at h
  · simp at h
  rename_i hm
  by_cases h4 : 4 ≤ tl.length
  · simp only [h4, if_true] at h
    by_cases h5 : mpay &&& 0x7f ≤ (tl.drop 4).length
    · simp only [h5, if_true, Prod.mk.injEq, List.drop_drop] at h
      have h6 : mpay &&& 0x7f ≤ tl.length - 4 := by simpa using h5
      exact ⟨hm, by omega, h.2.symm⟩
    · simp only [h5, if_false] at h
      simp at h
  · simp [h4] at h

/-- C14. For a text frame whose second byte `mpay` has the mask bit set, the
call reads 4 key bytes and then `mpay & 0x7f` payload bytes, whatever the
length code (126 and 127 included): on `fop, mpay, key, payload, rest` it
returns a line of `len + 1` bytes and leaves `rest`; the frame has `6 + len`
bytes and `len <= 127`; and whenever a line is returned on `fop, mpay, tl`,
exactly the first `4 + len` bytes of `tl` were consumed. -/
theorem get_websocket_line_length_field (behind : Bytes) (fop mpay : Nat)
    (mk pl rest tl line : Bytes) (s s2 : ServerSocket) (hfop : fop &&& 0xf = 1)
    (hmask : mpay &&& 0x80 ≠ 0) (hk : mk.length = 4) (hp : pl.length = mpay &&& 0x7f) :
    (∃ l, get_websocket_line behind { s with inp := fop :: mpay :: (mk ++ pl ++ rest) }
        = some (.ret l, { s with inp := rest }) ∧ l.length = pl.length + 1) ∧
      (fop :: mpay :: (mk ++ pl)).length = 6 + (mpay &&& 0x7f) ∧ pl.length ≤ 127 ∧
      (get_websocket_line behind { s with inp := fop :: mpay :: tl } = some (.ret line, s2) →
        4 + (mpay &&& 0x7f) ≤ tl.length ∧
          s2 = { s with inp := tl.drop (4 + (mpay &&& 0x7f)) }) := by
  obtain ⟨inp, out, g1, g2, g3, g4, u, w⟩ := s
  have hg : ∀ t : Bytes, get_websocket_line behind ⟨fop :: mpay :: t, out, g1, g2, g3, g4, u, w⟩
      = some (textFrame behind fop ⟨mpay :: t, out, g1, g2, g3, g4, u, w⟩) := by
    intro t
    have h := gwl_after_pings behind [] (by intro x hx; simp at hx) fop (by omega)
      (mpay :: t) out g1 g2 g3 g4 u w
    simpa [pingFrames, pongFrames] using h
  have h127 : mpay &&& 0x7f ≤ 127 := by
    have : mpay &&& 0x7f = mpay % 2 ^ 7 := Nat.and_pow_two_sub_one_eq_mod mpay 7
    omega
  refine ⟨⟨((unmaskCode (load32 mk 0) pl.length (pl ++ [0] ++ behind)).set pl.length 0).take
    (pl.length + 1), ?_, ?_⟩, ?_, ?_, ?_⟩
  · simp only []
    rw [hg, textFrame_accept behind fop mpay mk pl rest out g1 g2 g3 g4 u w hfop hmask hk hp]
  · simp [unmaskCode_length]
  · simp [hk, hp]; omega
  · omega
  · intro h
    simp only [] at h
    rw [hg] at h
    have := textFrame_ret behind fop mpay tl out g1 g2 g3 g4 u w line s2
      (Option.some.inj h)
    exact ⟨this.2.1, this.2.2⟩

/-- The final `i` of the bulk loop: the first multiple of four not below `paylen`. -/
theorem bulkLoop_fst (mask paylen : Nat) : ∀ (fuel i : Nat) (mem : Bytes),
    paylen ≤ i + 4 * fuel →
      (bulkLoop mask paylen fuel i mem).1 = i + 4 * ((paylen - i + 3) / 4) := by
  intro fuel
  induction fuel with
  | zero => intro i mem h; simp only [bulkLoop]; omega
  | succ f ih =>
    intro i mem h
    unfold bulkLoop
    split
    · rw [ih _ _ (by omega)]; omega
    · simp only []; omega

/-- C15, the code at the failing input. For the 5-byte payload `hello` under
the key `01 02 03 04`, in a buffer followed by the bytes `07 07 07`: the bulk
loop ends with `i = 8`, two words where `5 / 4 = 1`; the remainder loop runs
`i % 4 = 0` times where `5 % 4 = 1`; and the bytes at offsets 5, 6 and 7 are
XOR-ed as well, which the split of the spec (`unmaskSpec`) leaves alone. -/
theorem unmask_split_hello :
    (bulkLoop (load32 [1, 2, 3, 4] 0) 5 5 0
        (maskPayload [1, 2, 3, 4] (str "hello") ++ [0] ++ [7, 7, 7])).1 = 8 ∧
      (5 : Nat) / 4 = 1 ∧
      ((8 + 2 ^ 64 - 4) % 2 ^ 64) % 4 = 0 ∧ (5 : Nat) % 4 = 1 ∧
      unmaskCode (load32 [1, 2, 3, 4] 0) 5
          (maskPayload [1, 2, 3, 4] (str "hello") ++ [0] ++ [7, 7, 7])
        = str "hello" ++ [2, 4, 3, 7] ∧
      unmaskSpec (load32 [1, 2, 3, 4] 0) 5
          (maskPayload [1, 2, 3, 4] (str "hello") ++ [0] ++ [7, 7, 7])
        = str "hello" ++ [0, 7, 7, 7] := by
  decide

theorem indexOf?_append_of_not_mem (c : Nat) : ∀ (u rest : Bytes), c ∉ u →
    (u ++ c :: rest).indexOf? c = some u.length := by
  intro u
  induction u with
  | nil => intro rest _; simp [List.indexOf?, List.findIdx?_cons]
  | cons a u ih =>
    intro rest h
    simp only [List.mem_cons, not_or] at h
    have hne : (a == c) = false := by simpa using fun e => h.1 e.symm
    have := ih rest h.2
    simp only [List.indexOf?] at this ⊢
    simp only [List.cons_append, List.findIdx?_cons, hne]
    simp [List.findIdx?_succ, this]

theorem indexOf?_of_not_mem (c : Nat) : ∀ (u : Bytes), c ∉ u → u.indexOf? c = none := by
  intro u
  induction u with
  | nil => intro _; simp [List.indexOf?]
  | cons a u ih =>
    intro h
    simp only [List.mem_cons, not_or] at h
    have hne : (a == c) = false := by simpa using fun e => h.1 e.symm
    have := ih h.2
    simp only [List.indexOf?] at this ⊢
    simp only [List.findIdx?_cons, hne]
    simp [List.findIdx?_succ, this]

theorem str_GET : str "GET " = [71, 69, 84, 32] := by decide

/-- C16. On a first line `GET ` ++ u ++ space ++ rest with no space in `u`
the URL stored is `u`; on a first line `GET ` ++ v with no space in `v` it is
`v`. In both cases nothing is sent and only `_got_first_line` and `_url`
change. Lines are shorter than `2^64` bytes. -/
theorem handshake_first_line_url (hook : ServerSocket → Result Unit × ServerSocket)
    (u rest v : Bytes) (s : ServerSocket) (h0 : s._got_first_line = false)
    (hu : 32 ∉ u) (hv : 32 ∉ v)
    (hlen : (str "GET " ++ u ++ [32] ++ rest).length < 2 ^ 64)
    (hlen2 : (str "GET " ++ v).length < 2 ^ 64) :
    HandshakeLine hook (str "GET " ++ u ++ [32] ++ rest) s
        = (.ret (), { s with _got_first_line := true, _url := u }) ∧
      HandshakeLine hook (str "GET " ++ v) s
        = (.ret (), { s with _got_first_line := true, _url := v }) := by
  obtain ⟨inp, out, g1, g2, g3, g4, w1, w2⟩ := s
  simp only at h0
  subst h0
  constructor
  · rw [HandshakeLine_first]
    have e1 : ¬ (str "GET " ++ u ++ [32] ++ rest).take 4 ≠ str "GET " := by
      simp [str_GET]
    rw [if_neg e1]
    have e2 : find (str "GET " ++ u ++ [32] ++ rest) 32 4 = 4 + u.length := by
      unfold find
      have : (str "GET " ++ u ++ [32] ++ rest).drop 4 = u ++ 32 :: rest := by simp [str_GET]
      rw [this, indexOf?_append_of_not_mem 32 u rest hu]
    have hl : u.length < 2 ^ 64 := by
      simp [str_GET] at hlen; omega
    have e3 : (4 + u.length + 2 ^ 64 - 4) % 2 ^ 64 = u.length := by omega
    rw [e2, e3]
    have e4 : substr (str "GET " ++ u ++ [32] ++ rest) 4 u.length = u := by
      simp [substr, str_GET]
    rw [e4]
  · rw [HandshakeLine_first]
    have e1 : ¬ (str "GET " ++ v).take 4 ≠ str "GET " := by
      simp [str_GET]
    rw [if_neg e1]
    have e2 : find (str "GET " ++ v) 32 4 = npos := by
      unfold find
      have : (str "GET " ++ v).drop 4 = v := by simp [str_GET]
      rw [this, indexOf?_of_not_mem 32 v hv]
    have hl : v.length < 2 ^ 64 - 4 := by
      simp [str_GET] at hlen2; omega
    have e3 : (npos + 2 ^ 64 - 4) % 2 ^ 64 = 2 ^ 64 - 5 := by
      unfold npos; norm_num
    rw [e2, e3]
    have e4 : substr (str "GET " ++ v) 4 (2 ^ 64 - 5) = v := by
      simp only [substr, str_GET]
      simp only [List.cons_append, List.nil_append, List.drop_succ_cons, List.drop_zero]
      exact List.take_of_length_le (by omega)
    rw [e4]

theorem getD_eq_getElem {l : Bytes} {k : Nat} (h : k < l.length) : l.getD k 0 = l[k] := by
  rw [List.getD_eq_getElem?_getD, List.getElem?_eq_getElem h]; rfl

theorem maskPayload_involutive (m q : Bytes) : maskPayload m (maskPayload m q) = q := by
  apply List.ext_getElem
  · simp [maskPayload_length]
  · intro k h1 h2
    rw [← getD_eq_getElem h1, ← getD_eq_getElem h2,
      maskPayload_getD m _ k (by rw [maskPayload_length]; exact h2), maskPayload_getD m q k h2,
      Nat.xor_assoc, Nat.xor_self, Nat.xor_zero]

/-- C19. For an accepted masked text frame with wire payload `q` of `n`
bytes the returned string has `n + 1` bytes: the first `n` are the unmasked
payload, the last is `0x00`; an empty payload gives the one-byte string. -/
theorem get_websocket_line_terminator (behind : Bytes) (fop : Nat) (m q rest : Bytes)
    (s : ServerSocket) (hfop : fop &&& 0xf = 1) (hm : isBytes m) (hm4 : m.length = 4)
    (hq : isBytes q) (hq127 : q.length ≤ 127) (hb : isBytes behind) :
    ∃ line, get_websocket_line behind
          { s with inp := fop :: (0x80 ||| q.length) :: (m ++ q ++ rest) }
        = some (.ret line, { s with inp := rest }) ∧
      line.length = q.length + 1 ∧ line.take q.length = maskPayload m q ∧
      line.drop q.length = [0] ∧ (q = [] → line = [0]) := by
  obtain ⟨inp, out, g1, g2, g3, g4, u, w⟩ := s
  refine ⟨maskPayload m q ++ [0], ?_, ?_, ?_, ?_, ?_⟩
  · have h := gwl_after_pings behind [] (by intro x hx; simp at hx) fop (by omega)
      ((0x80 ||| q.length) :: (m ++ q ++ rest)) out g1 g2 g3 g4 u w
    have h2 := textFrame_valid behind fop hfop hm hm4 (maskPayload_isBytes hm hq)
      (by rw [maskPayload_length]; exact hq127) hb rest out g1 g2 g3 g4 u w
    rw [maskPayload_involutive, maskPayload_length] at h2
    simp only [pingFrames, pongFrames, List.nil_append, List.append_nil] at h
    simp only []
    rw [h, h2]
  · simp [maskPayload_length]
  · have : q.length = (maskPayload m q).length := (maskPayload_length m q).symm
    rw [this, List.take_left']
    rfl
  · have : q.length = (maskPayload m q).length := (maskPayload_length m q).symm
    rw [this, List.drop_left']
    rfl
  · intro h
    subst h
    rfl

/-- C19, witness: the empty payload, followed by a close byte. -/
theorem get_websocket_line_terminator_witness :
    ∃ line, get_websocket_line [] { fresh [] with inp := 0x81 :: (0x80 ||| ([] : Bytes).length) ::
            ([1, 2, 3, 4] ++ [] ++ [0x88]) }
        = some (.ret line, { fresh [] with inp := [0x88] }) ∧
      line.length = ([] : Bytes).length + 1 ∧ line.take ([] : Bytes).length = maskPayload [1, 2, 3, 4] [] ∧
      line.drop ([] : Bytes).length = [0] ∧ (([] : Bytes) = [] → line = [0]) :=
  get_websocket_line_terminator [] 0x81 [1, 2, 3, 4] [] [0x88] (fresh []) (by decide)
    (by decide) (by decide) (by decide) (by decide) (by decide)

/-- One valid message followed by anything: its line, its pongs, the rest left unread. -/
theorem gwl_message (behind : Bytes) (f : TextMessage) (hf : f.valid) (hb : isBytes behind)
    (rest out : Bytes) (g1 g2 g3 g4 : Bool) (u w : Bytes) :
    get_websocket_line behind ⟨f.bytes ++ rest, out, g1, g2, g3, g4, u, w⟩
      = some (.ret (f.p ++ [0]), ⟨rest, out ++ pongFrames f.pings, g1, g2, g3, g4, u, w⟩) := by
  obtain ⟨hv, hfop, hm, hm4, hp, hp127⟩ := hf
  have h := gwl_after_pings behind f.pings hv f.fop (by omega)
    ((0x80 ||| f.p.length) :: (f.m ++ maskPayload f.m f.p ++ rest)) out g1 g2 g3 g4 u w
  have h2 := textFrame_valid behind f.fop hfop hm hm4 hp hp127 hb rest
    (out ++ pongFrames f.pings) g1 g2 g3 g4 u w
  simp only [TextMessage.bytes, textFrameBytes, List.cons_append, List.nil_append,
    List.append_assoc] at h h2 ⊢
  rw [h, h2]

theorem readLines_messages (behind : Bytes) (hb : isBytes behind) (rest : Bytes) :
    ∀ (fs : List TextMessage), (∀ g ∈ fs, g.valid) →
      ∀ (out : Bytes) (g1 g2 g3 g4 : Bool) (u w : Bytes),
        readLines behind fs.length ⟨wireBytes fs ++ rest, out, g1, g2, g3, g4, u, w⟩
          = (fs.map (fun g => Result.ret (g.p ++ [0])),
              ⟨rest, out ++ wirePongs fs, g1, g2, g3, g4, u, w⟩) := by
  intro fs
  induction fs with
  | nil => intro _ out g1 g2 g3 g4 u w; simp [readLines, wireBytes, wirePongs]
  | cons f fs ih =>
    intro hv out g1 g2 g3 g4 u w
    have hf := hv f (List.mem_cons_self _ _)
    have hv2 : ∀ g ∈ fs, g.valid := fun g hg => hv g (List.mem_cons_of_mem _ hg)
    simp only [List.length_cons, readLines, wireBytes, List.append_assoc]
    rw [gwl_message behind f hf hb]
    simp only [ih hv2, List.map_cons, wirePongs, List.append_assoc]

/-- C20 (as amended). For a valid message `f` (pings, then one masked text frame) and any
`rest`, decoding `f ++ rest` returns the line and writes the pongs of
decoding `f` alone and leaves `rest` unread; and `k` successive calls on `k`
messages followed by `rest` return, in order, the lines that decoding each
message alone returns (payload and terminator), write their pongs in order
and leave `rest`. -/
theorem get_websocket_line_frame_boundaries (behind : Bytes) (f : TextMessage)
    (fs : List TextMessage) (rest : Bytes) (s : ServerSocket) (hf : f.valid)
    (hfs : ∀ g ∈ fs, g.valid) (hb : isBytes behind) :
    (∃ line,
      get_websocket_line behind { s with inp := f.bytes }
        = some (.ret line, { s with inp := [], out := s.out ++ pongFrames f.pings }) ∧
      get_websocket_line behind { s with inp := f.bytes ++ rest }
        = some (.ret line, { s with inp := rest, out := s.out ++ pongFrames f.pings })) ∧
    (readLines behind fs.length { s with inp := wireBytes fs ++ rest }).1
        = fs.map (fun g => Result.ret (g.p ++ [0])) ∧
    (readLines behind fs.length { s with inp := wireBytes fs ++ rest }).2
        = { s with inp := rest, out := s.out ++ wirePongs fs } ∧
    (∀ g ∈ fs, (get_websocket_line behind { s with inp := g.bytes }).map Prod.fst
        = some (.ret (g.p ++ [0]))) := by
  obtain ⟨inp, out, g1, g2, g3, g4, u, w⟩ := s
  refine ⟨⟨f.p ++ [0], ?_, ?_⟩, ?_, ?_, ?_⟩
  · have := gwl_message behind f hf hb [] out g1 g2 g3 g4 u w
    simpa using this
  · exact gwl_message behind f hf hb rest out g1 g2 g3 g4 u w
  · simp only []
    rw [readLines_messages behind hb rest fs hfs]
  · simp only []
    rw [readLines_messages behind hb rest fs hfs]
  · intro g hg
    have := gwl_message behind g (hfs g hg) hb [] out g1 g2 g3 g4 u w
    simp only [List.append_nil] at this
    simp only []
    rw [this]
    rfl

set_option maxRecDepth 10000 in
/-- C14, witness: length code 126 with a 126-byte payload. -/
theorem get_websocket_line_length_field_witness :
    (∃ l, get_websocket_line [] { fresh [] with
          inp := 0x81 :: 0xFE :: ([1, 2, 3, 4] ++ List.replicate 126 65 ++ [9]) }
        = some (.ret l, { fresh [] with inp := [9] }) ∧
        l.length = (List.replicate 126 65).length + 1) ∧
      (0x81 :: 0xFE :: ([1, 2, 3, 4] ++ List.replicate 126 65)).length = 6 + (0xFE &&& 0x7f) :=
  ⟨(get_websocket_line_length_field [] 0x81 0xFE [1, 2, 3, 4] (List.replicate 126 65) [9] []
      [] (fresh []) (fresh []) (by decide) (by decide) (by decide) (by decide)).1,
    (get_websocket_line_length_field [] 0x81 0xFE [1, 2, 3, 4] (List.replicate 126 65) [9] []
      [] (fresh []) (fresh []) (by decide) (by decide) (by decide) (by decide)).2.1⟩

/-- C16, witness: `GET /chat HTTP/1.1` stores `/chat`, and so does `GET /chat`. -/
theorem handshake_first_line_url_witness :
    HandshakeLine (WebServer.OnConnection [] []) (str "GET /chat HTTP/1.1") (fresh [])
        = (.ret (), { fresh [] with _got_first_line := true, _url := str "/chat" }) ∧
      HandshakeLine (WebServer.OnConnection [] []) (str "GET /chat") (fresh [])
        = (.ret (), { fresh [] with _got_first_line := true, _url := str "/chat" }) :=
  handshake_first_line_url (WebServer.OnConnection [] []) (str "/chat") (str "HTTP/1.1")
    (str "/chat") (fresh []) rfl (by decide) (by decide) (by decide) (by decide)

/-- C20, witness: a message with one ping and the text `a`, then two messages
`b` and `c`, the last preceded by a ping; a close byte follows. -/
theorem get_websocket_line_frame_boundaries_witness :
    (∃ line,
      get_websocket_line [] { fresh [] with
          inp := (TextMessage.mk [(0x89, [1])] 0x81 [1, 2, 3, 4] (str "a")).bytes }
        = some (.ret line, { fresh [] with inp := [], out := [] ++ pongFrames [(0x89, [1])] }) ∧
      get_websocket_line [] { fresh [] with
          inp := (TextMessage.mk [(0x89, [1])] 0x81 [1, 2, 3, 4] (str "a")).bytes ++ [0x88] }
        = some (.ret line,
            { fresh [] with inp := [0x88], out := [] ++ pongFrames [(0x89, [1])] })) ∧
    (readLines [] 2 { fresh [] with
        inp := wireBytes [TextMessage.mk [] 0x81 [5, 6, 7, 8] (str "b"),
          TextMessage.mk [(0x89, [2])] 0x01 [9, 9, 9, 9] (str "c")] ++ [0x88] }).1
      = [Result.ret (str "b" ++ [0]), Result.ret (str "c" ++ [0])] :=
  ⟨(get_websocket_line_frame_boundaries [] (TextMessage.mk [(0x89, [1])] 0x81 [1, 2, 3, 4] (str "a"))
      [TextMessage.mk [] 0x81 [5, 6, 7, 8] (str "b"),
        TextMessage.mk [(0x89, [2])] 0x01 [9, 9, 9, 9] (str "c")] [0x88] (fresh [])
      (by decide) (by decide) (by decide)).1,
    (get_websocket_line_frame_boundaries [] (TextMessage.mk [(0x89, [1])] 0x81 [1, 2, 3, 4] (str "a"))
      [TextMessage.mk [] 0x81 [5, 6, 7, 8] (str "b"),
        TextMessage.mk [(0x89, [2])] 0x01 [9, 9, 9, 9] (str "c")] [0x88] (fresh [])
      (by decide) (by decide) (by decide)).2.1⟩

/-- C20, counterexample to the claim as stated: two successive calls on the
frames of `a` and `b` return `a`, `0x00` and `b`, `0x00`, not the payloads
`a` and `b`. -/
theorem readLines_not_payloads :
    (readLines [] 2 (fresh (wireBytes [TextMessage.mk [] 0x81 [1, 2, 3, 4] (str "a"),
        TextMessage.mk [] 0x81 [5, 6, 7, 8] (str "b")]))).1
      = [Result.ret [97, 0], Result.ret [98, 0]] ∧
    (readLines [] 2 (fresh (wireBytes [TextMessage.mk [] 0x81 [1, 2, 3, 4] (str "a"),
        TextMessage.mk [] 0x81 [5, 6, 7, 8] (str "b")]))).1
      ≠ [Result.ret (str "a"), Result.ret (str "b")] := by
  decide

/-! ## Bounds of the unmask loops -/

/-- The bulk loop is the word XOR at the offsets of `bulkOffsets`, one after
the other, and ends with `i` four past the last of them. -/
theorem bulkLoop_eq_offsets (mask paylen : Nat) : ∀ (fuel i : Nat) (mem : Bytes),
    bulkLoop mask paylen fuel i mem =
      (i + 4 * (bulkOffsets paylen fuel i).length,
        (bulkOffsets paylen fuel i).foldl
          (fun d off => store32 d off (load32 d off ^^^ mask)) mem) := by
  intro fuel
  induction fuel with
  | zero => intro i mem; simp [bulkLoop, bulkOffsets]
  | succ f ih =>
    intro i mem
    unfold bulkLoop bulkOffsets
    split
    · rw [ih]
      simp only [List.length_cons, List.foldl_cons, Prod.mk.injEq, and_true]
      omega
    · simp

/-- With enough fuel the offsets are `i, i + 4, ...` below `paylen`. -/
theorem bulkOffsets_eq (paylen : Nat) : ∀ (fuel i : Nat), paylen ≤ i + 4 * fuel →
    bulkOffsets paylen fuel i
      = (List.range ((paylen - i + 3) / 4)).map (fun w => i + 4 * w) := by
  intro fuel
  induction fuel with
  | zero =>
    intro i h
    have : (paylen - i + 3) / 4 = 0 := by omega
    simp [bulkOffsets, this]
  | succ f ih =>
    intro i h
    unfold bulkOffsets
    split
    · rename_i hlt
      rw [ih (i + 4) (by omega)]
      have e : (paylen - i + 3) / 4 = (paylen - (i + 4) + 3) / 4 + 1 := by omega
      rw [e, List.range_succ_eq_map, List.map_cons, List.map_map]
      simp only [Nat.mul_zero, Nat.add_zero, List.cons.injEq, true_and]
      apply List.map_congr_left
      intro w _
      simp only [Function.comp, Nat.succ_eq_add_one]
      omega
    · have : (paylen - i + 3) / 4 = 0 := by omega
      simp [this]

theorem mem_touchedBytes (k : Nat) : ∀ (offs : List Nat),
    k ∈ touchedBytes offs ↔ ∃ off ∈ offs, off ≤ k ∧ k < off + 4 := by
  intro offs
  induction offs with
  | nil => simp [touchedBytes]
  | cons off offs ih =>
    simp only [touchedBytes, List.mem_cons, ih, exists_eq_or_imp]
    constructor
    · rintro (h | h | h | h | h)
      · exact Or.inl (by omega)
      · exact Or.inl (by omega)
      · exact Or.inl (by omega)
      · exact Or.inl (by omega)
      · exact Or.inr h
    · rintro (h | h)
      · omega
      · exact Or.inr (Or.inr (Or.inr (Or.inr h)))

/-- The bytes touched by the bulk loop are those below `4 * ceil(paylen / 4)`. -/
theorem mem_touchedBytes_bulk (paylen k : Nat) :
    k ∈ touchedBytes (bulkOffsets paylen paylen 0) ↔ k < 4 * ((paylen + 3) / 4) := by
  rw [mem_touchedBytes, bulkOffsets_eq paylen paylen 0 (by omega)]
  simp only [Nat.sub_zero, Nat.zero_add, List.mem_map, List.mem_range]
  constructor
  · rintro ⟨off, ⟨w, hw, rfl⟩, h1, h2⟩
    omega
  · intro h
    exact ⟨4 * (k / 4), ⟨k / 4, by omega, rfl⟩, by omega, by omega⟩

/-- C21. For a payload length `n` in 0..127: the bulk loop runs at the byte
offsets 0, 4, 8, ..., `ceil(n/4)` of them, and ends with `i = 4 * ceil(n/4)`;
the bytes it touches are those up to `4 * ceil(n/4) - 1` (none for `n = 0`);
they all lie inside the `n + 1` bytes of the blob exactly when `n mod 4` is 0
or 3; and the remainder loop runs `i % 4 = 0` times, so it changes nothing,
also for `n = 0` where `i -= 4` wraps to `2^64 - 4`. -/
theorem bulk_loop_bounds (mask n : Nat) (data : Bytes) (hn : n ≤ 127) :
    bulkOffsets n n 0 = (List.range ((n + 3) / 4)).map (fun w => 4 * w) ∧
      bulkLoop mask n n 0 data =
        (4 * ((n + 3) / 4),
          (bulkOffsets n n 0).foldl (fun d off => store32 d off (load32 d off ^^^ mask)) data) ∧
      (∀ k, k ∈ touchedBytes (bulkOffsets n n 0) ↔ k ≤ 4 * ((n + 3) / 4) - 1 ∧ 0 < n) ∧
      ((∀ k ∈ touchedBytes (bulkOffsets n n 0), k < n + 1) ↔ (n % 4 = 0 ∨ n % 4 = 3)) ∧
      (((bulkLoop mask n n 0 data).1 + 2 ^ 64 - 4) % 2 ^ 64) % 4 = 0 ∧
      tailLoop mask (((bulkLoop mask n n 0 data).1 + 2 ^ 64 - 4) % 2 ^ 64)
          (bulkLoop mask n n 0 data).2 = (bulkLoop mask n n 0 data).2 ∧
      (n = 0 → ((bulkLoop mask n n 0 data).1 + 2 ^ 64 - 4) % 2 ^ 64 = 2 ^ 64 - 4) := by
  have hoff : bulkOffsets n n 0 = (List.range ((n + 3) / 4)).map (fun w => 4 * w) := by
    rw [bulkOffsets_eq n n 0 (by omega)]
    simp
  have hfst : (bulkLoop mask n n 0 data).1 = 4 * ((n + 3) / 4) := by
    rw [bulkLoop_fst mask n n 0 data (by omega)]
    simp
  have hmod : (((bulkLoop mask n n 0 data).1 + 2 ^ 64 - 4) % 2 ^ 64) % 4 = 0 := by
    rw [hfst]; omega
  refine ⟨hoff, ?_, ?_, ?_, hmod, tailLoop_of_mod _ _ _ hmod, ?_⟩
  · rw [bulkLoop_eq_offsets, hoff]
    simp
  · intro k
    rw [mem_touchedBytes_bulk]
    omega
  · constructor
    · intro h
      by_contra hc
      have h1 : n + 1 ∈ touchedBytes (bulkOffsets n n 0) := by
        rw [mem_touchedBytes_bulk]; omega
      have := h _ h1
      omega
    · intro h k hk
      rw [mem_touchedBytes_bulk] at hk
      omega
  · intro h0
    rw [hfst, h0]
    norm_num

/-- C21, witness: `n = 5` on the masked payload `hello` followed by the
bytes `07 07 07`, and the wrap-around for `n = 0`. -/
theorem bulk_loop_bounds_witness :
    (bulkOffsets 5 5 0 = (List.range ((5 + 3) / 4)).map (fun w => 4 * w) ∧
      bulkLoop (load32 [1, 2, 3, 4] 0) 5 5 0
          (maskPayload [1, 2, 3, 4] (str "hello") ++ [0] ++ [7, 7, 7]) =
        (4 * ((5 + 3) / 4),
          (bulkOffsets 5 5 0).foldl
            (fun d off => store32 d off (load32 d off ^^^ load32 [1, 2, 3, 4] 0))
            (maskPayload [1, 2, 3, 4] (str "hello") ++ [0] ++ [7, 7, 7]))) ∧
      ((∀ k ∈ touchedBytes (bulkOffsets 5 5 0), k < 5 + 1) ↔ (5 % 4 = 0 ∨ 5 % 4 = 3)) ∧
      ((0 : Nat) = 0 → ((bulkLoop 0 0 0 0 [0]).1 + 2 ^ 64 - 4) % 2 ^ 64 = 2 ^ 64 - 4) :=
  ⟨⟨(bulk_loop_bounds (load32 [1, 2, 3, 4] 0) 5
        (maskPayload [1, 2, 3, 4] (str "hello") ++ [0] ++ [7, 7, 7]) (by decide)).1,
      (bulk_loop_bounds (load32 [1, 2, 3, 4] 0) 5
        (maskPayload [1, 2, 3, 4] (str "hello") ++ [0] ++ [7, 7, 7]) (by decide)).2.1⟩,
    (bulk_loop_bounds (load32 [1, 2, 3, 4] 0) 5
        (maskPayload [1, 2, 3, 4] (str "hello") ++ [0] ++ [7, 7, 7]) (by decide)).2.2.2.1,
    (bulk_loop_bounds 0 0 [0] (by decide)).2.2.2.2.2.2⟩

/-! ## The owner of the handshake -/

/-- In a registry with pairwise distinct names the menu lists the name of a
registered command once if the command is not hidden, and not at all if it
is. -/
theorem helpMenu_count (hidden : CmdRequest → Bool) :
    ∀ (registry : List CmdRequest), (registry.map fun c => c.cmd_str).Nodup →
      ∀ c ∈ registry,
        ((helpMenu hidden registry).map Prod.fst).count c.cmd_str
          = if hidden c then 0 else 1 := by
  intro registry
  induction registry with
  | nil => intro _ c hc; simp at hc
  | cons a l ih =>
    intro hnd c hc
    simp only [List.map_cons, List.nodup_cons] at hnd
    obtain ⟨ha, hl⟩ := hnd
    have hsub : ∀ n, n ∈ (helpMenu hidden l).map Prod.fst → n ∈ l.map fun c => c.cmd_str := by
      intro n hn
      simp only [helpMenu, List.map_map, List.mem_map, List.mem_filter, Function.comp] at hn ⊢
      obtain ⟨x, ⟨hx, -⟩, rfl⟩ := hn
      exact ⟨x, hx, rfl⟩
    have hcons : (helpMenu hidden (a :: l)).map Prod.fst
        = if hidden a then (helpMenu hidden l).map Prod.fst
          else a.cmd_str :: (helpMenu hidden l).map Prod.fst := by
      cases h : hidden a <;> simp [helpMenu, List.filter_cons, h]
    rw [hcons]
    rcases List.mem_cons.mp hc with rfl | hcl
    · have h0 : ((helpMenu hidden l).map Prod.fst).count c.cmd_str = 0 :=
        List.count_eq_zero.mpr fun h => ha (hsub _ h)
      cases h : hidden c <;> simp [h0]
    · have hne : a.cmd_str ≠ c.cmd_str := by
        intro e
        exact ha (e ▸ List.mem_map.mpr ⟨c, hcl, rfl⟩)
      have := ih hl c hcl
      cases h : hidden a
      · simp only [Bool.false_eq_true, if_false, List.count_cons, this]
        have : (a.cmd_str == c.cmd_str) = false := by simpa using hne
        simp [this]
      · simp only [if_true, this]

/-- C18 (as amended). The built-in command table declares, in this order, the
names `exit`, `quit`, `q`, the one-byte name `0x04` (Ctrl-D, the EOF marker),
`.`, `help`, `h` and `stats`, and they are pairwise distinct; so the menu lists
each exactly once when no command is hidden, and, whichever commands are
hidden, each command that is not hidden exactly once and no hidden one. The
commands `exit`, `q`, the EOF marker and `.` are declared with the flags
(false, true) and the summary `Close the shell connection`; `quit` has the
summary and the first flag of `exit` and differs in the last flag: (false,
false). -/
theorem builtin_command_names (hidden : CmdRequest → Bool) :
    builtinCommands.map (fun c => c.cmd_str)
        = [str "exit", str "quit", str "q", [4], str ".", str "help", str "h", str "stats"] ∧
      (builtinCommands.map (fun c => c.cmd_str)).Nodup ∧
      (∀ c ∈ builtinCommands,
        ((helpMenu (fun _ => false) builtinCommands).map Prod.fst).count c.cmd_str = 1) ∧
      (∀ c ∈ builtinCommands,
        ((helpMenu hidden builtinCommands).map Prod.fst).count c.cmd_str
          = if hidden c then 0 else 1) ∧
      (∀ c ∈ [cmd_exit, cmd_q, cmd_ctrld, cmd_dot],
        c.flag1 = false ∧ c.flag2 = true ∧ c.cmd_sum = str "Close the shell connection") ∧
      cmd_quit.cmd_sum = cmd_exit.cmd_sum ∧ cmd_quit.flag1 = cmd_exit.flag1 ∧
      cmd_quit.flag1 = false ∧ cmd_quit.flag2 = false ∧ cmd_quit.flag2 ≠ cmd_exit.flag2 := by
  have hnd : (builtinCommands.map (fun c => c.cmd_str)).Nodup := by decide
  refine ⟨by decide, hnd, ?_, helpMenu_count hidden builtinCommands hnd, by decide, by decide,
    by decide, by decide, by decide, by decide⟩
  intro c hc
  have := helpMenu_count (fun _ => false) builtinCommands hnd c hc
  simpa using this

/-- C18, witness: in the menu that hides the commands whose last flag is set,
`quit` is listed once and `exit` is not listed; in the menu that hides none
the EOF marker is listed once. -/
theorem builtin_command_names_witness :
    ((helpMenu (fun c => c.flag2) builtinCommands).map Prod.fst).count (str "quit") = 1 ∧
      ((helpMenu (fun c => c.flag2) builtinCommands).map Prod.fst).count (str "exit") = 0 ∧
      ((helpMenu (fun _ => false) builtinCommands).map Prod.fst).count [4] = 1 :=
  ⟨(builtin_command_names (fun c => c.flag2)).2.2.2.1 cmd_quit (by decide),
    (builtin_command_names (fun c => c.flag2)).2.2.2.1 cmd_exit (by decide),
    (builtin_command_names (fun c => c.flag2)).2.2.1 cmd_ctrld (by decide)⟩

/-- C18, counterexample to the claim as stated: the name of the EOF marker is
the one byte `0x04`, not the empty name, and no command of the table has the
empty name. -/
theorem builtin_eof_name_not_empty :
    cmd_ctrld.cmd_str = [4] ∧ cmd_ctrld.cmd_str ≠ str "" ∧
      str "" ∉ builtinCommands.map (fun c => c.cmd_str) := by
  decide

/-- The menu of the built-in commands when none is hidden, and when the
commands whose last flag is set are hidden. -/
theorem builtin_menus :
    (helpMenu (fun _ => false) builtinCommands).map Prod.fst
        = [str "exit", str "quit", str "q", [4], str ".", str "help", str "h", str "stats"] ∧
      (helpMenu (fun c => c.flag2) builtinCommands).map Prod.fst
        = [str "quit", str "help", str "stats"] := by
  decide

end CogServer
